import Mathlib

/-!
Verification of the simple3-formatter repository.

The repository contains two copies of the same component:
`src/simple3_formatter/simple3_formatter.py` (class `Simple3Formatter`,
modelled below in the namespace `Simple3`) and `src/src/s3fmt/core.py`
(class `Simple3Formatter`, modelled in the namespace `S3fmt`).  Both copies
define the same helper functions line for line (`_unit_from_exp3`,
`_digits_for_three_total`, the prefix tables, the rendering and parsing
helpers); those shared helpers are modelled once at top level and reused by
both namespaces.  The two public entry points `format` and `parse`, whose
surrounding control flow differs between the copies, are modelled
separately in each namespace.

Numbers are modelled by `ℚ`: a rational stands for the real value of the
Python float, so `math.log10`, `round`, `math.floor` and `math.ceil` are
given their exact real-number semantics.  Strings are Lean `String`s
(lists of characters); the machinery below renders and parses them
explicitly, mirroring the Python format specifications `:,` and `:,.Nf`
and the `float()` literal grammar.
-/

/-- Fuel-driven helper for the number of decimal digits minus one:
`nlog10Aux fuel n` is `⌊log10 n⌋` provided `0 < n < 10 ^ fuel`. -/
def nlog10Aux : ℕ → ℕ → ℕ
  | 0, _ => 0
  | fuel + 1, n => if n < 10 then 0 else nlog10Aux fuel (n / 10) + 1

/-- Base-10 logarithm, rounded down, of a positive natural number. -/
def nlog10 (n : ℕ) : ℕ := nlog10Aux n n

/-- Least `k` with `n ≤ 10 ^ k` (base-10 ceiling logarithm of a natural). -/
def ncLog10 (n : ℕ) : ℕ := if n ≤ 1 then 0 else nlog10 (n - 1) + 1

/-- Exact model of `int(math.floor(math.log10 q))` for a positive rational:
the unique `L` with `10 ^ L ≤ q < 10 ^ (L + 1)`. -/
def ratLog10 (q : ℚ) : ℤ :=
  if 1 ≤ q then (nlog10 ⌊q⌋.toNat : ℤ) else -(ncLog10 ⌈q⁻¹⌉.toNat : ℤ)

/-- Round to the nearest integer, ties to the even neighbour: the exact
semantics of Python `round(x)` on the real value of `x`. -/
def rne (q : ℚ) : ℤ :=
  if q - ⌊q⌋ < 1 / 2 then ⌊q⌋
  else if 1 / 2 < q - ⌊q⌋ then ⌊q⌋ + 1
  else if ⌊q⌋ % 2 = 0 then ⌊q⌋ else ⌊q⌋ + 1

/-- Python `round(x, n)` on the real value: round half to even at `n`
decimal places. -/
def pyRound (q : ℚ) (n : ℕ) : ℚ := (rne (q * 10 ^ n) : ℚ) / 10 ^ n

/-- The "floor" rounding mode of `format`: `math.floor(x * 10**n) / 10**n`. -/
def pyFloorRound (q : ℚ) (n : ℕ) : ℚ := (⌊q * 10 ^ n⌋ : ℚ) / 10 ^ n

/-- The "ceil" rounding mode of `format`: `math.ceil(x * 10**n) / 10**n`. -/
def pyCeilRound (q : ℚ) (n : ℕ) : ℚ := (⌈q * 10 ^ n⌉ : ℚ) / 10 ^ n

/-- `UNITS_POS` from both source files. -/
def UNITS_POS : List String := ["", "K", "M", "G", "T", "P", "E"]

/-- `UNITS_NEG` from both source files. -/
def UNITS_NEG : List String := ["", "m", "µ", "n", "p", "f", "a"]

/-- Insertion of one key into an association list with Python `dict`
semantics: an existing key is overwritten in place, a new key is appended. -/
def dictInsert (d : List (String × ℤ)) (k : String) (v : ℤ) : List (String × ℤ) :=
  if d.any (fun p => p.1 = k) then d.map (fun p => if p.1 = k then (k, v) else p)
  else d ++ [(k, v)]

/-- Python `dict.update` over an association list. -/
def dictUpdate (d : List (String × ℤ)) (kvs : List (String × ℤ)) : List (String × ℤ) :=
  kvs.foldl (fun d p => dictInsert d p.1 p.2) d

/-- `UNIT_TO_EXP`: built from `UNITS_POS` with exponents `i * 3`, then
updated with `UNITS_NEG` and exponents `-i * 3`; the duplicate empty-string
key is overwritten in place with `-0 = 0`.  Insertion order is kept, as in
a Python dict. -/
def UNIT_TO_EXP : List (String × ℤ) :=
  dictUpdate (UNITS_POS.enum.map (fun p => (p.2, 3 * (p.1 : ℤ))))
    (UNITS_NEG.enum.map (fun p => (p.2, -(3 * (p.1 : ℤ)))))

/-- `_unit_from_exp3` (identical in both source files): clamp a magnitude
step to the supported range and look up its symbol. -/
def unitFromExp3 (exp3 : ℤ) : ℤ × String :=
  if 0 ≤ exp3 then
    let e := min exp3 ((UNITS_POS.length : ℤ) - 1)
    (e, UNITS_POS.getD e.toNat "")
  else
    let lower : ℤ := -((UNITS_NEG.length : ℤ) - 1)
    let e := max exp3 lower
    (e, UNITS_NEG.getD (-e).toNat "")

/-- `_digits_for_three_total` (identical in both source files): the number
of fractional digits needed for three digits in total. -/
def digitsForThreeTotal (scaledAbs : ℚ) : ℕ :=
  if scaledAbs ≤ 0 then 2
  else (max (3 - (ratLog10 scaledAbs + 1)) 0).toNat

/-- Fuel-driven decimal digit list (most significant first) of a natural
number, provided `n < 10 ^ fuel`. -/
def natDigitsAux : ℕ → ℕ → List Char
  | 0, _ => []
  | fuel + 1, n =>
    if n < 10 then [Nat.digitChar n]
    else natDigitsAux fuel (n / 10) ++ [Nat.digitChar (n % 10)]

/-- Decimal digit list of a natural number, most significant digit first. -/
def natDigits (n : ℕ) : List Char := natDigitsAux (n + 1) n

/-- Insert `sep` before each character that starts a new group of three,
scanning a reversed digit list; `k` counts the characters left in the
current group. -/
def groupRevAux (sep : Char) : ℕ → List Char → List Char
  | _, [] => []
  | 0, c :: rest => sep :: c :: groupRevAux sep 2 rest
  | k + 1, c :: rest => c :: groupRevAux sep k rest

/-- Insert `sep` after every three characters of a reversed digit list;
helper for thousands grouping. -/
def groupRev (sep : Char) (l : List Char) : List Char := groupRevAux sep 3 l

/-- Thousands grouping of a digit list, as produced by the Python format
specifications `:,` (with `sep = ','`) and `:_` (with `sep = '_'`). -/
def groupDigits (sep : Char) (l : List Char) : List Char :=
  (groupRev sep l.reverse).reverse

/-- Rendering of `f"\x7bm:,\x7d"` for an integer `m`: sign, digits, comma
grouping. -/
def renderInt (m : ℤ) : List Char :=
  (if m < 0 then ['-'] else []) ++ groupDigits ',' (natDigits m.natAbs)

/-- Rendering of `f"\x7bq:,.Nf\x7d"`: round half to even at `f` decimal
places, then sign, grouped integer digits, point, zero-padded fractional
digits. -/
def renderFixed (q : ℚ) (f : ℕ) : List Char :=
  (if q < 0 then ['-'] else []) ++
    groupDigits ',' (natDigits ((rne (q * 10 ^ f)).natAbs / 10 ^ f)) ++ ['.'] ++
    List.replicate (f - (natDigits ((rne (q * 10 ^ f)).natAbs % 10 ^ f)).length) '0' ++
    natDigits ((rne (q * 10 ^ f)).natAbs % 10 ^ f)

/-- The `repr` of the internal `_UnderscoreInt` type: `f"\x7bn:_\x7d"`,
underscore-grouped digits. -/
def reprUnderscoreInt (n : ℤ) : String :=
  String.mk ((if n < 0 then ['-'] else []) ++ groupDigits '_' (natDigits n.natAbs))

/-- The single error kind of `format`: `mode` outside the recognized set
(a `ValueError` in the source). -/
inductive FormatError where
  | invalidArgument
deriving DecidableEq, Repr

/-- The shared tail of `format` in both source files, entered after the
zero, mode and effective-zero guards: magnitude-step selection, scaling,
fractional-digit computation, rounding per `mode`, the carry-up check, and
rendering. -/
def formatTail (value : ℚ) (mode : String) : Except FormatError String :=
  let exp3Guess : ℤ := ⌊(ratLog10 |value| : ℚ) / 3⌋
  let pu := unitFromExp3 exp3Guess
  let exp3 := pu.1
  let unit := pu.2
  let scaled := value / (10 : ℚ) ^ (3 * exp3)
  let fracDigits := digitsForThreeTotal |scaled|
  let scaled1 :=
    if mode = "round" then pyRound scaled fracDigits
    else if mode = "floor" then pyFloorRound scaled fracDigits
    else pyCeilRound scaled fracDigits
  if 1000 ≤ |scaled1| then
    let pu2 := unitFromExp3 (exp3 + 1)
    let scaled2 := scaled1 / 1000
    let fracDigits2 := digitsForThreeTotal |scaled2|
    if fracDigits2 = 0 then .ok (String.mk (renderInt (rne scaled2)) ++ pu2.2)
    else .ok (String.mk (renderFixed scaled2 fracDigits2) ++ pu2.2)
  else
    if fracDigits = 0 then .ok (String.mk (renderInt (rne scaled1)) ++ unit)
    else .ok (String.mk (renderFixed scaled1 fracDigits) ++ unit)

namespace Simple3

/-- `Simple3Formatter.format` from `src/simple3_formatter/simple3_formatter.py`:
the zero check comes first, then mode validation, then the effective-zero
guard, then the shared formatting tail. -/
def format (value : ℚ) (mode : String := "round") : Except FormatError String :=
  if value = 0 then .ok "0.00"
  else if ¬(mode = "round" ∨ mode = "floor" ∨ mode = "ceil") then .error .invalidArgument
  else if |value| < 1 / 10 ^ 300 then .ok "0.00"
  else formatTail value mode

end Simple3

namespace S3fmt

/-- `Simple3Formatter.format` from `src/src/s3fmt/core.py`: mode validation
comes first, then the zero check, then the effective-zero guard, then the
shared formatting tail. -/
def format (value : ℚ) (mode : String := "round") : Except FormatError String :=
  if ¬(mode = "round" ∨ mode = "floor" ∨ mode = "ceil") then .error .invalidArgument
  else if value = 0 then .ok "0.00"
  else if |value| < 1 / 10 ^ 300 then .ok "0.00"
  else formatTail value mode

end S3fmt

/-- The set of whitespace characters stripped by Python `str.strip()` and
by `float()` (the ASCII ones; the repository's inputs are ASCII). -/
def isPySpace (c : Char) : Bool :=
  c = ' ' || c = '\t' || c = '\n' || c = '\r' || c = Char.ofNat 11 || c = Char.ofNat 12

/-- Strip leading and trailing whitespace, as Python `str.strip()`. -/
def trimWs (l : List Char) : List Char :=
  ((l.dropWhile isPySpace).reverse.dropWhile isPySpace).reverse

/-- Remove commas and underscores: `.replace(",", "").replace("_", "")`. -/
def stripSeps (l : List Char) : List Char :=
  l.filter (fun c => !(c = ',' || c = '_'))

/-- ASCII decimal digit test, the digit class of the Python `float()`
literal grammar (the repository's numeric text is ASCII). -/
def isDig (c : Char) : Bool :=
  ['0', '1', '2', '3', '4', '5', '6', '7', '8', '9'].contains c

/-- Value of a list of decimal digit characters, most significant first. -/
def digitsToNat (l : List Char) : ℕ :=
  l.foldl (fun a c => 10 * a + (c.toNat - 48)) 0

/-- The value of a Python float: a finite value (idealized as an exact
rational), a signed infinity, or a NaN. -/
inductive PyFloat where
  | finite (q : ℚ)
  | inf (neg : Bool)
  | nan
deriving DecidableEq, Repr

/-- Model of Python `float(s)` on ASCII text: optional surrounding
whitespace, optional sign, then either `inf`/`infinity`/`nan`
(case-insensitive) or a decimal literal `d+ | d+. | d+.d+ | .d+` with an
optional `e`/`E` exponent.  The caller in `parse` has already removed
commas and underscores, so digit-group underscores need no handling. -/
def floatParse (l : List Char) : Option PyFloat :=
  let t := trimWs l
  let neg := t.head? = some '-'
  let r := if t.head? = some '+' ∨ t.head? = some '-' then t.tail else t
  let low := r.map Char.toLower
  if low = "inf".data ∨ low = "infinity".data then some (.inf neg)
  else if low = "nan".data then some .nan
  else
    let ip := r.takeWhile isDig
    let r1 := r.dropWhile isDig
    let fp := if r1.head? = some '.' then r1.tail.takeWhile isDig else []
    let r2 := if r1.head? = some '.' then r1.tail.dropWhile isDig else r1
    if ip = [] ∧ fp = [] then none
    else
      let mantissa : ℚ := (digitsToNat ip : ℚ) + (digitsToNat fp : ℚ) / 10 ^ fp.length
      let signed := if neg then -mantissa else mantissa
      if r2 = [] then some (.finite signed)
      else if r2.head? = some 'e' ∨ r2.head? = some 'E' then
        let er := r2.tail
        let eneg := er.head? = some '-'
        let er2 := if er.head? = some '+' ∨ er.head? = some '-' then er.tail else er
        let ed := er2.takeWhile isDig
        if ed = [] ∨ er2.dropWhile isDig ≠ [] then none
        else
          some (.finite (signed *
            (10 : ℚ) ^ (if eneg then -(digitsToNat ed : ℤ) else (digitsToNat ed : ℤ))))
      else none

/-- `num * (10 ** exp)` on a Python float value. -/
def pyMulPow10 (v : PyFloat) (e : ℤ) : PyFloat :=
  match v with
  | .finite q => .finite (q * (10 : ℚ) ^ e)
  | v => v

/-- The two error kinds of `parse` (both `ValueError` in the source,
distinguished by their message): a missing unit symbol, carrying the
original input, and an invalid numeric part, carrying the offending
substring after separator stripping. -/
inductive ParseError where
  | missingUnit (orig : String)
  | invalidNumber (numStr : String)
deriving DecidableEq, Repr

/-- The result of `parse`: a plain float, or (with `as_str=True`) a value
wrapped in the internal `_UnderscoreInt` or `_UnderscoreFloat` display
type. -/
inductive ParseResult where
  | plain (v : PyFloat)
  | intDisplay (n : ℤ)
  | fracDisplay (v : PyFloat)
deriving DecidableEq, Repr

/-- `Simple3Formatter._wrap` (identical in both source files): a value
that is mathematically an integer becomes `_UnderscoreInt(int(val))`,
anything else (including infinities and NaN) becomes `_UnderscoreFloat`. -/
def wrap (v : PyFloat) : ParseResult :=
  match v with
  | .finite q => if q.den = 1 then .intDisplay q.num else .fracDisplay (.finite q)
  | v => .fracDisplay v

/-- The numeric value carried by a parse result (the display wrappers are
numerically transparent). -/
def pyValOf : ParseResult → PyFloat
  | .plain v => v
  | .intDisplay n => .finite (n : ℚ)
  | .fracDisplay v => v

/-- Structural version of `str.startswith` on character lists. -/
def isPrefixOfL : List Char → List Char → Bool
  | [], _ => true
  | _ :: _, [] => false
  | a :: as, b :: bs => a = b && isPrefixOfL as bs

/-- Python `s.endswith(unit)` on character lists. -/
def endswithL (s suffixChars : List Char) : Bool :=
  isPrefixOfL suffixChars.reverse s.reverse

/-- `sorted(UNIT_TO_EXP.keys(), key=len, reverse=True)`: the unit symbols
ordered by length descending; Python's sort is stable, as is insertion
sort with this relation. -/
def sortedUnits : List String :=
  List.insertionSort (fun a b => b.length ≤ a.length) (UNIT_TO_EXP.map Prod.fst)

/-- The candidate loop of `parse` (identical in both source files): try
each unit symbol in order; a non-empty symbol that is a suffix of the
trimmed text selects the branch that strips the symbol and the separators,
parses the rest as a float (`ValueError` there becomes the invalid-number
error), scales by `10 ** UNIT_TO_EXP[unit]` and optionally wraps; if no
symbol matches, the missing-unit error carries the original text. -/
def parseLoop (asStr : Bool) (orig : String) (s : List Char) :
    List String → Except ParseError ParseResult
  | [] => .error (.missingUnit orig)
  | u :: rest =>
    if u ≠ "" ∧ endswithL s u.data then
      let numStr := stripSeps (s.take (s.length - u.data.length))
      match floatParse numStr with
      | none => .error (.invalidNumber (String.mk numStr))
      | some num =>
        let val := pyMulPow10 num ((UNIT_TO_EXP.lookup u).getD 0)
        .ok (if asStr then wrap val else .plain val)
    else parseLoop asStr orig s rest

namespace Simple3

/-- `Simple3Formatter.parse` from `src/simple3_formatter/simple3_formatter.py`. -/
def parse (valueStr : String) (asStr : Bool := false) : Except ParseError ParseResult :=
  parseLoop asStr valueStr (trimWs valueStr.data) sortedUnits

end Simple3

namespace S3fmt

/-- `Simple3Formatter.parse` from `src/src/s3fmt/core.py` (its body is
line-for-line the same as the other copy's). -/
def parse (valueStr : String) (asStr : Bool := false) : Except ParseError ParseResult :=
  parseLoop asStr valueStr (trimWs valueStr.data) sortedUnits

end S3fmt

/-- Number of digit characters in a rendered string (integer plus
fractional digits; sign, separators, point and unit symbol excluded). -/
def digitCount (s : String) : ℕ := (s.data.filter isDig).length

/-! ### Arithmetic facts about the logarithm and rounding helpers -/

theorem nlog10Aux_spec : ∀ fuel n, 0 < n → n < 10 ^ fuel →
    10 ^ nlog10Aux fuel n ≤ n ∧ n < 10 ^ (nlog10Aux fuel n + 1) := by
  intro fuel
  induction fuel with
  | zero => intro n h1 h2; simp at h2; omega
  | succ f ih =>
    intro n h1 h2
    simp only [nlog10Aux]
    by_cases h : n < 10
    · simp only [h, if_true]
      refine ⟨by simpa using h1, by simpa using h⟩
    · simp only [h, if_false]
      have hn10 : 0 < n / 10 := Nat.div_pos (by omega) (by norm_num)
      have hlt : n / 10 < 10 ^ f := by
        rw [Nat.div_lt_iff_lt_mul (by norm_num)]
        calc n < 10 ^ (f + 1) := h2
          _ = 10 ^ f * 10 := by rw [pow_succ]
      obtain ⟨l, u⟩ := ih (n / 10) hn10 hlt
      have hdm := Nat.div_add_mod n 10
      have hmod := Nat.mod_lt n (show 0 < 10 by norm_num)
      constructor
      · calc 10 ^ (nlog10Aux f (n / 10) + 1) = 10 ^ nlog10Aux f (n / 10) * 10 := by
              rw [pow_succ]
          _ ≤ n / 10 * 10 := Nat.mul_le_mul_right 10 l
          _ ≤ n := Nat.div_mul_le_self n 10
      · have h10 : n / 10 + 1 ≤ 10 ^ (nlog10Aux f (n / 10) + 1) := u
        calc n = 10 * (n / 10) + n % 10 := hdm.symm
          _ < 10 * (n / 10 + 1) := by omega
          _ ≤ 10 * 10 ^ (nlog10Aux f (n / 10) + 1) := by omega
          _ = 10 ^ (nlog10Aux f (n / 10) + 1 + 1) := by ring

theorem nlog10_spec (n : ℕ) (h : 0 < n) :
    10 ^ nlog10 n ≤ n ∧ n < 10 ^ (nlog10 n + 1) :=
  nlog10Aux_spec n n h (Nat.lt_pow_self (by norm_num) n)

theorem ten_zpow_pos (k : ℤ) : 0 < (10 : ℚ) ^ k := zpow_pos (by norm_num) k

theorem ten_zpow_mono {m n : ℤ} (h : m ≤ n) : (10 : ℚ) ^ m ≤ 10 ^ n :=
  zpow_le_zpow_right₀ (by norm_num) h

theorem ten_zpow_strictMono {m n : ℤ} (h : m < n) : (10 : ℚ) ^ m < 10 ^ n :=
  zpow_lt_zpow_right₀ (by norm_num) h

theorem ten_zpow_natCast (m : ℕ) : (10 : ℚ) ^ (m : ℤ) = ((10 ^ m : ℕ) : ℚ) := by
  rw [zpow_natCast]; push_cast; ring

theorem ratLog10_spec (q : ℚ) (hq : 0 < q) :
    (10 : ℚ) ^ ratLog10 q ≤ q ∧ q < (10 : ℚ) ^ (ratLog10 q + 1) := by
  unfold ratLog10
  by_cases h : 1 ≤ q
  · simp only [h, if_true]
    have hf : 1 ≤ ⌊q⌋ := by rw [Int.le_floor]; exact_mod_cast h
    have hn : 0 < ⌊q⌋.toNat := by omega
    obtain ⟨l, u⟩ := nlog10_spec ⌊q⌋.toNat hn
    have hcast : ((⌊q⌋.toNat : ℕ) : ℚ) = (⌊q⌋ : ℚ) := by
      have : ((⌊q⌋.toNat : ℤ) : ℚ) = (⌊q⌋ : ℚ) := by congr 1; omega
      exact_mod_cast this
    constructor
    · calc (10 : ℚ) ^ (nlog10 ⌊q⌋.toNat : ℤ) = ((10 ^ nlog10 ⌊q⌋.toNat : ℕ) : ℚ) :=
            ten_zpow_natCast _
        _ ≤ ((⌊q⌋.toNat : ℕ) : ℚ) := by exact_mod_cast l
        _ = (⌊q⌋ : ℚ) := hcast
        _ ≤ q := Int.floor_le q
    · have hu : ((⌊q⌋.toNat : ℕ) : ℚ) + 1 ≤ ((10 ^ (nlog10 ⌊q⌋.toNat + 1) : ℕ) : ℚ) := by
        exact_mod_cast u
      calc q < (⌊q⌋ : ℚ) + 1 := Int.lt_floor_add_one q
        _ = ((⌊q⌋.toNat : ℕ) : ℚ) + 1 := by rw [hcast]
        _ ≤ ((10 ^ (nlog10 ⌊q⌋.toNat + 1) : ℕ) : ℚ) := hu
        _ = (10 : ℚ) ^ ((nlog10 ⌊q⌋.toNat : ℤ) + 1) := by
            rw [show ((nlog10 ⌊q⌋.toNat : ℤ) + 1) = ((nlog10 ⌊q⌋.toNat + 1 : ℕ) : ℤ) by
              push_cast; ring, ten_zpow_natCast]
  · simp only [h, if_false]
    push_neg at h
    have hr : 1 < q⁻¹ := (one_lt_inv₀ hq).mpr h
    have hrpos : 0 < q⁻¹ := by positivity
    have hcint : 1 < ⌈q⁻¹⌉ := by rw [Int.lt_ceil]; exact_mod_cast hr
    set c := ⌈q⁻¹⌉.toNat with hcdef
    have hc2 : 2 ≤ c := by omega
    have hcast : ((c : ℕ) : ℚ) = (⌈q⁻¹⌉ : ℚ) := by
      have : ((c : ℤ) : ℚ) = (⌈q⁻¹⌉ : ℚ) := by rw [hcdef]; congr 1; omega
      exact_mod_cast this
    have hnc : ncLog10 c = nlog10 (c - 1) + 1 := by
      unfold ncLog10; rw [if_neg (by omega)]
    obtain ⟨l, u⟩ := nlog10_spec (c - 1) (by omega)
    rw [hnc]
    set m := nlog10 (c - 1) with hmdef
    have hinv_le : q⁻¹ ≤ (10 : ℚ) ^ ((m : ℤ) + 1) := by
      have h1 : q⁻¹ ≤ ((c : ℕ) : ℚ) := hcast ▸ Int.le_ceil q⁻¹
      have h2 : ((c : ℕ) : ℚ) ≤ ((10 ^ (m + 1) : ℕ) : ℚ) := by
        exact_mod_cast (by omega : c ≤ 10 ^ (m + 1))
      calc q⁻¹ ≤ ((c : ℕ) : ℚ) := h1
        _ ≤ ((10 ^ (m + 1) : ℕ) : ℚ) := h2
        _ = (10 : ℚ) ^ ((m : ℤ) + 1) := by
            rw [show ((m : ℤ) + 1) = ((m + 1 : ℕ) : ℤ) by push_cast; ring, ten_zpow_natCast]
    have hlt_inv : (10 : ℚ) ^ (m : ℤ) < q⁻¹ := by
      have h1 : ((c : ℕ) : ℚ) - 1 < q⁻¹ := by
        have := Int.ceil_lt_add_one q⁻¹
        rw [← hcast] at this; linarith
      have h2 : (10 : ℚ) ^ (m : ℤ) ≤ ((c : ℕ) : ℚ) - 1 := by
        rw [ten_zpow_natCast]
        have : ((10 ^ m : ℕ) : ℚ) ≤ ((c - 1 : ℕ) : ℚ) := by exact_mod_cast l
        rw [Nat.cast_sub (by omega)] at this
        simpa using this
      linarith
    have hgoal_exp : (-(((m + 1 : ℕ) : ℤ)) : ℤ) = -((m : ℤ) + 1) := by push_cast; ring
    constructor
    · rw [hgoal_exp, zpow_neg]
      have := inv_anti₀ hrpos hinv_le
      rwa [inv_inv] at this
    · rw [hgoal_exp, show -((m : ℤ) + 1) + 1 = -(m : ℤ) by ring, zpow_neg]
      have := (inv_lt_inv₀ hrpos (ten_zpow_pos (m : ℤ))).mpr hlt_inv
      rwa [inv_inv] at this

theorem ratLog10_unique (q : ℚ) (L : ℤ) (h1 : (10 : ℚ) ^ L ≤ q)
    (h2 : q < (10 : ℚ) ^ (L + 1)) : ratLog10 q = L := by
  have hq : 0 < q := lt_of_lt_of_le (ten_zpow_pos L) h1
  obtain ⟨l, u⟩ := ratLog10_spec q hq
  by_contra hne
  rcases lt_or_gt_of_ne hne with hlt | hgt
  · have : (10 : ℚ) ^ (ratLog10 q + 1) ≤ 10 ^ L := ten_zpow_mono (by omega)
    linarith
  · have : (10 : ℚ) ^ (L + 1) ≤ 10 ^ ratLog10 q := ten_zpow_mono (by omega)
    linarith

theorem floorDiv3_bounds (L : ℤ) :
    3 * ⌊((L : ℚ)) / 3⌋ ≤ L ∧ L < 3 * ⌊((L : ℚ)) / 3⌋ + 3 := by
  have h1 : ((⌊((L : ℚ)) / 3⌋ : ℤ) : ℚ) ≤ (L : ℚ) / 3 := Int.floor_le _
  have h2 : (L : ℚ) / 3 < (⌊((L : ℚ)) / 3⌋ : ℚ) + 1 := Int.lt_floor_add_one _
  constructor
  · exact_mod_cast (by push_cast; linarith : ((3 * ⌊((L : ℚ)) / 3⌋ : ℤ) : ℚ) ≤ ((L : ℤ) : ℚ))
  · exact_mod_cast (by push_cast; linarith : ((L : ℤ) : ℚ) < ((3 * ⌊((L : ℚ)) / 3⌋ + 3 : ℤ) : ℚ))

theorem rne_sub_abs (q : ℚ) : |(rne q : ℚ) - q| ≤ 1 / 2 := by
  have h0 : (⌊q⌋ : ℚ) ≤ q := Int.floor_le q
  have h1 : q < (⌊q⌋ : ℚ) + 1 := Int.lt_floor_add_one q
  unfold rne
  split_ifs with ha hb hc <;> rw [abs_le] <;> constructor <;> push_cast <;> linarith

theorem rne_intCast (m : ℤ) : rne (m : ℚ) = m := by
  unfold rne
  simp [Int.floor_intCast]

theorem floor_le_rne (q : ℚ) : ⌊q⌋ ≤ rne q := by
  unfold rne; split_ifs <;> omega

theorem rne_le_floor_add_one (q : ℚ) : rne q ≤ ⌊q⌋ + 1 := by
  unfold rne; split_ifs <;> omega

theorem rne_neg (q : ℚ) : rne (-q) = -rne q := by
  by_cases hz : (⌊q⌋ : ℚ) = q
  · have hq : q = ((⌊q⌋ : ℤ) : ℚ) := hz.symm
    rw [hq, show -((⌊q⌋ : ℤ) : ℚ) = ((-⌊q⌋ : ℤ) : ℚ) by push_cast; ring,
      rne_intCast, rne_intCast]
  · have h0 : (⌊q⌋ : ℚ) ≤ q := Int.floor_le q
    have h1 : q < (⌊q⌋ : ℚ) + 1 := Int.lt_floor_add_one q
    have h0' : (⌊q⌋ : ℚ) < q := lt_of_le_of_ne h0 hz
    have hceil : ⌈q⌉ = ⌊q⌋ + 1 := by
      rw [Int.ceil_eq_iff]
      constructor
      · push_cast; linarith
      · push_cast; linarith
    have hfneg : ⌊-q⌋ = -⌊q⌋ - 1 := by
      rw [Int.floor_neg, hceil]; ring
    unfold rne
    rw [hfneg]
    have harith : -q - ((-⌊q⌋ - 1 : ℤ) : ℚ) = 1 - (q - (⌊q⌋ : ℚ)) := by push_cast; ring
    rw [harith]
    split_ifs <;> first | omega | (exfalso; linarith)

theorem pyRound_neg (q : ℚ) (n : ℕ) : pyRound (-q) n = -pyRound q n := by
  unfold pyRound
  rw [show -q * 10 ^ n = -(q * 10 ^ n) by ring, rne_neg]
  push_cast
  ring

theorem pyRound_sub_abs (q : ℚ) (n : ℕ) : |pyRound q n - q| ≤ 1 / (2 * 10 ^ n) := by
  have hpow : (0 : ℚ) < 10 ^ n := by positivity
  have h := rne_sub_abs (q * 10 ^ n)
  have hsplit : pyRound q n - q = ((rne (q * 10 ^ n) : ℚ) - q * 10 ^ n) / 10 ^ n := by
    unfold pyRound; field_simp; ring
  rw [hsplit, abs_div, abs_of_pos hpow, div_le_div_iff₀ hpow (by positivity)]
  have h2 : |(rne (q * 10 ^ n) : ℚ) - q * 10 ^ n| * (2 * 10 ^ n) ≤ (1 / 2) * (2 * 10 ^ n) :=
    mul_le_mul_of_nonneg_right h (by positivity)
  linarith

theorem pyRound_mul_pow (q : ℚ) (n : ℕ) : pyRound q n * 10 ^ n = (rne (q * 10 ^ n) : ℚ) := by
  unfold pyRound
  field_simp

/-! ### Facts about digit characters and digit lists -/

theorem isDig_cases {c : Char} (h : isDig c = true) :
    c = '0' ∨ c = '1' ∨ c = '2' ∨ c = '3' ∨ c = '4' ∨ c = '5' ∨ c = '6' ∨ c = '7' ∨
      c = '8' ∨ c = '9' := by
  unfold isDig at h
  have hmem : c ∈ ['0', '1', '2', '3', '4', '5', '6', '7', '8', '9'] := by simpa using h
  simpa using hmem

theorem isDig_props {c : Char} (h : isDig c = true) :
    isPySpace c = false ∧ (!(c = ',' || c = '_')) = true ∧ c.toLower = c ∧
      ¬c = '.' ∧ ¬c = '-' ∧ ¬c = '+' ∧ ¬c = 'e' ∧ ¬c = 'E' := by
  rcases isDig_cases h with rfl | rfl | rfl | rfl | rfl | rfl | rfl | rfl | rfl | rfl <;>
    exact ⟨by decide, by decide, by decide, by decide, by decide, by decide, by decide,
      by decide⟩

theorem digitChar_isDig {n : ℕ} (h : n < 10) : isDig (Nat.digitChar n) = true := by
  interval_cases n <;> decide

theorem digitChar_toNat {n : ℕ} (h : n < 10) : (Nat.digitChar n).toNat - 48 = n := by
  interval_cases n <;> decide

theorem natDigitsAux_mem_isDig :
    ∀ fuel n c, c ∈ natDigitsAux fuel n → isDig c = true := by
  intro fuel
  induction fuel with
  | zero => intro n c hc; simp [natDigitsAux] at hc
  | succ f ih =>
    intro n c hc
    simp only [natDigitsAux] at hc
    by_cases h : n < 10
    · rw [if_pos h] at hc
      simp at hc
      subst hc
      exact digitChar_isDig h
    · rw [if_neg h] at hc
      rcases List.mem_append.mp hc with h1 | h2
      · exact ih _ _ h1
      · simp at h2
        subst h2
        exact digitChar_isDig (Nat.mod_lt _ (by norm_num))

theorem natDigits_mem_isDig {n : ℕ} {c : Char} (h : c ∈ natDigits n) : isDig c = true :=
  natDigitsAux_mem_isDig _ _ _ h

theorem digitsToNat_go (a : ℕ) (l : List Char) :
    l.foldl (fun a c => 10 * a + (c.toNat - 48)) a = a * 10 ^ l.length + digitsToNat l := by
  induction l generalizing a with
  | nil => simp [digitsToNat]
  | cons c t ih =>
    simp only [List.foldl_cons, digitsToNat, List.length_cons]
    rw [ih (10 * a + (c.toNat - 48)), ih (10 * 0 + (c.toNat - 48))]
    rw [pow_succ]
    ring

theorem digitsToNat_append (l1 l2 : List Char) :
    digitsToNat (l1 ++ l2) = digitsToNat l1 * 10 ^ l2.length + digitsToNat l2 := by
  unfold digitsToNat
  rw [List.foldl_append]
  exact digitsToNat_go _ l2

theorem digitsToNat_replicate_zero (k : ℕ) :
    digitsToNat (List.replicate k '0') = 0 := by
  induction k with
  | zero => simp [digitsToNat]
  | succ n ih =>
    rw [List.replicate_succ]
    unfold digitsToNat at ih ⊢
    simpa using ih

theorem digitsToNat_pad (k : ℕ) (l : List Char) :
    digitsToNat (List.replicate k '0' ++ l) = digitsToNat l := by
  rw [digitsToNat_append, digitsToNat_replicate_zero]
  simp

theorem digitsToNat_natDigitsAux :
    ∀ fuel n, n < 10 ^ fuel → digitsToNat (natDigitsAux fuel n) = n := by
  intro fuel
  induction fuel with
  | zero => intro n h; interval_cases n; simp [natDigitsAux, digitsToNat]
  | succ f ih =>
    intro n h
    simp only [natDigitsAux]
    by_cases hn : n < 10
    · rw [if_pos hn]
      unfold digitsToNat
      simpa using digitChar_toNat hn
    · rw [if_neg hn]
      have hdiv : n / 10 < 10 ^ f := by
        rw [Nat.div_lt_iff_lt_mul (by norm_num)]
        calc n < 10 ^ (f + 1) := h
          _ = 10 ^ f * 10 := by rw [pow_succ]
      rw [digitsToNat_append, ih _ hdiv]
      have : digitsToNat [Nat.digitChar (n % 10)] = n % 10 := by
        unfold digitsToNat
        simpa using digitChar_toNat (Nat.mod_lt _ (by norm_num))
      rw [this]
      simp only [List.length_singleton, pow_one]
      omega

theorem digitsToNat_natDigits (n : ℕ) : digitsToNat (natDigits n) = n :=
  digitsToNat_natDigitsAux (n + 1) n
    (lt_trans (Nat.lt_pow_self (by norm_num) n) (Nat.pow_lt_pow_succ (by norm_num)))

theorem natDigitsAux_ne_nil (fuel n : ℕ) (h : 0 < fuel) : natDigitsAux fuel n ≠ [] := by
  match fuel, h with
  | f + 1, _ =>
    simp only [natDigitsAux]
    split_ifs <;> simp

theorem natDigits_ne_nil (n : ℕ) : natDigits n ≠ [] :=
  natDigitsAux_ne_nil (n + 1) n (by omega)

theorem natDigitsAux_length_le :
    ∀ fuel n k, 0 < k → n < 10 ^ k → (natDigitsAux fuel n).length ≤ k := by
  intro fuel
  induction fuel with
  | zero => intro n k _ _; simp [natDigitsAux]
  | succ f ih =>
    intro n k hk h
    simp only [natDigitsAux]
    by_cases hn : n < 10
    · rw [if_pos hn]; simpa using hk
    · rw [if_neg hn]
      have hk2 : 2 ≤ k := by
        by_contra hc
        have : k = 1 := by omega
        subst this
        simp at h
        omega
      have hdiv : n / 10 < 10 ^ (k - 1) := by
        rw [Nat.div_lt_iff_lt_mul (by norm_num)]
        calc n < 10 ^ k := h
          _ = 10 ^ (k - 1) * 10 := by
              rw [← pow_succ]
              congr 1
              omega
      have := ih (n / 10) (k - 1) (by omega) hdiv
      rw [List.length_append]
      simp only [List.length_singleton]
      omega

theorem natDigits_length_le {n k : ℕ} (hk : 0 < k) (h : n < 10 ^ k) :
    (natDigits n).length ≤ k :=
  natDigitsAux_length_le (n + 1) n k hk h

/-! ### Facts about grouping, trimming, and scanning helpers -/

theorem groupRevAux_filter (p : Char → Bool) (sep : Char) (hsep : p sep = false) :
    ∀ l k, (groupRevAux sep k l).filter p = l.filter p := by
  intro l
  induction l with
  | nil => intro k; simp [groupRevAux]
  | cons c rest ih =>
    intro k
    match k with
    | 0 => simp [groupRevAux, List.filter_cons, hsep, ih 2]
    | k + 1 => simp [groupRevAux, List.filter_cons, ih k]

theorem groupRev_filter (p : Char → Bool) (sep : Char) (hsep : p sep = false) :
    ∀ l, (groupRev sep l).filter p = l.filter p :=
  fun l => groupRevAux_filter p sep hsep l 3

theorem groupRevAux_mem (sep : Char) :
    ∀ l k c, c ∈ groupRevAux sep k l → c = sep ∨ c ∈ l := by
  intro l
  induction l with
  | nil => intro k c hc; simp [groupRevAux] at hc
  | cons a rest ih =>
    intro k c hc
    match k with
    | 0 =>
      simp only [groupRevAux, List.mem_cons] at hc
      rcases hc with rfl | rfl | htail
      · exact Or.inl rfl
      · exact Or.inr (by simp)
      · rcases ih 2 c htail with hs | hm
        · exact Or.inl hs
        · exact Or.inr (by simp [hm])
    | k + 1 =>
      simp only [groupRevAux, List.mem_cons] at hc
      rcases hc with rfl | htail
      · exact Or.inr (by simp)
      · rcases ih k c htail with hs | hm
        · exact Or.inl hs
        · exact Or.inr (by simp [hm])

theorem groupRev_mem (sep : Char) :
    ∀ l c, c ∈ groupRev sep l → c = sep ∨ c ∈ l :=
  fun l c hc => groupRevAux_mem sep l 3 c hc

theorem groupDigits_filter (p : Char → Bool) (sep : Char) (hsep : p sep = false)
    (l : List Char) : (groupDigits sep l).filter p = l.filter p := by
  unfold groupDigits
  rw [List.filter_reverse, groupRev_filter p sep hsep, ← List.filter_reverse,
    List.reverse_reverse]

theorem groupDigits_mem {sep : Char} {l : List Char} {c : Char}
    (h : c ∈ groupDigits sep l) : c = sep ∨ c ∈ l := by
  unfold groupDigits at h
  rw [List.mem_reverse] at h
  rcases groupRev_mem sep l.reverse c h with hs | hm
  · exact Or.inl hs
  · exact Or.inr (List.mem_reverse.mp hm)

theorem takeWhile_append_all {p : Char → Bool} {l1 : List Char} (l2 : List Char)
    (h : ∀ c ∈ l1, p c = true) :
    (l1 ++ l2).takeWhile p = l1 ++ l2.takeWhile p := by
  induction l1 with
  | nil => simp
  | cons a t ih =>
    have ha : p a = true := h a (List.mem_cons_self a t)
    simp only [List.cons_append, List.takeWhile_cons, ha, if_true]
    rw [ih (fun c hc => h c (List.mem_cons_of_mem a hc))]

theorem dropWhile_append_all {p : Char → Bool} {l1 : List Char} (l2 : List Char)
    (h : ∀ c ∈ l1, p c = true) :
    (l1 ++ l2).dropWhile p = l2.dropWhile p := by
  induction l1 with
  | nil => simp
  | cons a t ih =>
    have ha : p a = true := h a (by simp)
    simp only [List.cons_append, List.dropWhile_cons, ha, if_true]
    exact ih (fun c hc => h c (by simp [hc]))

theorem takeWhile_all {p : Char → Bool} {l : List Char} (h : ∀ c ∈ l, p c = true) :
    l.takeWhile p = l := by
  have := @takeWhile_append_all p l [] h
  simpa using this

theorem dropWhile_all {p : Char → Bool} {l : List Char} (h : ∀ c ∈ l, p c = true) :
    l.dropWhile p = [] := by
  have := @dropWhile_append_all p l [] h
  simpa using this

theorem dropWhile_head_false {p : Char → Bool} {l : List Char}
    (h : ∀ c ∈ l.head?, p c = false) : l.dropWhile p = l := by
  cases l with
  | nil => rfl
  | cons a t =>
    have ha : p a = false := h a (by simp)
    simp [List.dropWhile_cons, ha]

theorem trimWs_eq_self {l : List Char} (h : ∀ c ∈ l, isPySpace c = false) :
    trimWs l = l := by
  unfold trimWs
  have h1 : l.dropWhile isPySpace = l := by
    apply dropWhile_head_false
    intro c hc
    cases l with
    | nil => simp at hc
    | cons a t =>
      simp at hc
      subst hc
      exact h a (by simp)
  rw [h1]
  have h2 : l.reverse.dropWhile isPySpace = l.reverse := by
    apply dropWhile_head_false
    intro c hc
    cases hr : l.reverse with
    | nil => rw [hr] at hc; simp at hc
    | cons a t =>
      rw [hr] at hc
      simp at hc
      subst hc
      have : a ∈ l.reverse := by rw [hr]; simp
      exact h a (List.mem_reverse.mp this)
  rw [h2, List.reverse_reverse]

/-! ### Rendered numerals survive separator stripping and parse back exactly -/

theorem filter_notSep_of_digits {l : List Char} (h : ∀ c ∈ l, isDig c = true) :
    l.filter (fun c => !(c = ',' || c = '_')) = l :=
  List.filter_eq_self.mpr (fun c hc => (isDig_props (h c hc)).2.1)

theorem stripSeps_renderInt (m : ℤ) :
    stripSeps (renderInt m) = (if m < 0 then ['-'] else []) ++ natDigits m.natAbs := by
  unfold stripSeps renderInt
  rw [List.filter_append]
  congr 1
  · split_ifs <;> decide
  · rw [groupDigits_filter _ ',' (by decide)]
    exact filter_notSep_of_digits (fun c hc => natDigits_mem_isDig hc)

theorem stripSeps_renderFixed (q : ℚ) (f : ℕ) :
    stripSeps (renderFixed q f) =
      (if q < 0 then ['-'] else []) ++ natDigits ((rne (q * 10 ^ f)).natAbs / 10 ^ f) ++
        ['.'] ++
        List.replicate (f - (natDigits ((rne (q * 10 ^ f)).natAbs % 10 ^ f)).length) '0' ++
        natDigits ((rne (q * 10 ^ f)).natAbs % 10 ^ f) := by
  unfold stripSeps renderFixed
  have h1 : (if q < 0 then ['-'] else []).filter (fun c => !(c = ',' || c = '_')) =
      (if q < 0 then ['-'] else []) := by split_ifs <;> decide
  have h2 : (groupDigits ',' (natDigits ((rne (q * 10 ^ f)).natAbs / 10 ^ f))).filter
      (fun c => !(c = ',' || c = '_')) = natDigits ((rne (q * 10 ^ f)).natAbs / 10 ^ f) := by
    rw [groupDigits_filter _ ',' (by decide)]
    exact filter_notSep_of_digits (fun c hc => natDigits_mem_isDig hc)
  have h3 : (['.'] : List Char).filter (fun c => !(c = ',' || c = '_')) = ['.'] := by decide
  have h4 : (List.replicate (f - (natDigits ((rne (q * 10 ^ f)).natAbs % 10 ^ f)).length)
      '0').filter (fun c => !(c = ',' || c = '_')) =
      List.replicate (f - (natDigits ((rne (q * 10 ^ f)).natAbs % 10 ^ f)).length) '0' :=
    List.filter_eq_self.mpr (fun c hc => by rw [List.eq_of_mem_replicate hc]; decide)
  have h5 : (natDigits ((rne (q * 10 ^ f)).natAbs % 10 ^ f)).filter
      (fun c => !(c = ',' || c = '_')) = natDigits ((rne (q * 10 ^ f)).natAbs % 10 ^ f) :=
    filter_notSep_of_digits (fun c hc => natDigits_mem_isDig hc)
  rw [List.filter_append, List.filter_append, List.filter_append, List.filter_append,
    h1, h2, h3, h4, h5]

theorem renderInt_noWs (m : ℤ) : ∀ c ∈ renderInt m, isPySpace c = false := by
  intro c hc
  unfold renderInt at hc
  rcases List.mem_append.mp hc with h1 | h2
  · have : c = '-' := by
      rcases (by split_ifs at h1 <;> simp_all : c = '-' ∨ False) with h | h
      · exact h
      · exact h.elim
    subst this; decide
  · rcases groupDigits_mem h2 with rfl | hd
    · decide
    · exact (isDig_props (natDigits_mem_isDig hd)).1

theorem renderFixed_noWs (q : ℚ) (f : ℕ) : ∀ c ∈ renderFixed q f, isPySpace c = false := by
  intro c hc
  unfold renderFixed at hc
  rcases List.mem_append.mp hc with hc1 | h5
  rcases List.mem_append.mp hc1 with hc2 | h4
  rcases List.mem_append.mp hc2 with hc3 | h3
  rcases List.mem_append.mp hc3 with h1 | h2
  · have : c = '-' := by
      rcases (by split_ifs at h1 <;> simp_all : c = '-' ∨ False) with h | h
      · exact h
      · exact h.elim
    subst this; decide
  · rcases groupDigits_mem h2 with rfl | hd
    · decide
    · exact (isDig_props (natDigits_mem_isDig hd)).1
  · have : c = '.' := by simpa using h3
    subst this; decide
  · rw [List.eq_of_mem_replicate h4]; decide
  · exact (isDig_props (natDigits_mem_isDig h5)).1

theorem digits_ne_word {d w : List Char} {cw : Char} (hne : d ≠ [])
    (hd : ∀ c ∈ d, isDig c = true) (hw : w.head? = some cw) (hcw : isDig cw = false) :
    d ≠ w := by
  cases d with
  | nil => exact absurd rfl hne
  | cons c t =>
    cases w with
    | nil => simp
    | cons c' t' =>
      intro h
      have hc : c = c' := by
        have := congrArg List.head? h
        simpa using this
      have h1 := hd c (by simp)
      have h2 : c' = cw := by simpa using hw
      rw [hc, h2] at h1
      rw [h1] at hcw
      cases hcw

theorem digits_map_toLower {d : List Char} (hd : ∀ c ∈ d, isDig c = true) :
    d.map Char.toLower = d := by
  have h : ∀ c ∈ d, Char.toLower c = c := fun c hc => (isDig_props (hd c hc)).2.2.1
  calc d.map Char.toLower = d.map id := List.map_congr_left h
    _ = d := List.map_id d


/-- Parsing a comma-free rendered integer recovers the integer exactly. -/
theorem floatParse_plain_int (m : ℤ) :
    floatParse ((if m < 0 then ['-'] else []) ++ natDigits m.natAbs) =
      some (.finite (m : ℚ)) := by
  set a := m.natAbs with ha
  have hd : ∀ c ∈ natDigits a, isDig c = true := fun c hc => natDigits_mem_isDig hc
  have hne : natDigits a ≠ [] := natDigits_ne_nil a
  have hlow : (natDigits a).map Char.toLower = natDigits a := digits_map_toLower hd
  have hinf1 : natDigits a ≠ "inf".data :=
    digits_ne_word hne hd (show ("inf".data).head? = some 'i' from rfl) (by decide)
  have hinf2 : natDigits a ≠ "infinity".data :=
    digits_ne_word hne hd (show ("infinity".data).head? = some 'i' from rfl) (by decide)
  have hnan : natDigits a ≠ "nan".data :=
    digits_ne_word hne hd (show ("nan".data).head? = some 'n' from rfl) (by decide)
  have htake : (natDigits a).takeWhile isDig = natDigits a := takeWhile_all hd
  have hdrop : (natDigits a).dropWhile isDig = [] := dropWhile_all hd
  have hval : (digitsToNat (natDigits a) : ℚ) = (a : ℚ) := by
    rw [digitsToNat_natDigits]
  have habs : ((a : ℕ) : ℚ) = |(m : ℚ)| := by
    rw [ha, Int.cast_natAbs]
    push_cast
    ring
  by_cases hm : m < 0
  · rw [if_pos hm]
    have htrim : trimWs ('-' :: natDigits a) = '-' :: natDigits a := by
      apply trimWs_eq_self
      intro c hc
      rcases List.mem_cons.mp hc with rfl | h2
      · decide
      · exact (isDig_props (hd c h2)).1
    have hneg : ((a : ℕ) : ℚ) = -(m : ℚ) := by
      rw [habs]
      exact abs_of_neg (by exact_mod_cast hm)
    simp only [floatParse, List.singleton_append]
    simp [htrim, hlow, hinf1, hinf2, hnan, htake, hdrop, hne, hval]
    simp [digitsToNat, hneg]
  · rw [if_neg hm]
    have htrim : trimWs (natDigits a) = natDigits a :=
      trimWs_eq_self (fun c hc => (isDig_props (hd c hc)).1)
    obtain ⟨c₀, t, hct⟩ : ∃ c₀ t, natDigits a = c₀ :: t := by
      cases hdl : natDigits a with
      | nil => exact absurd hdl hne
      | cons x y => exact ⟨x, y, rfl⟩
    have hc₀ : isDig c₀ = true := hd c₀ (by rw [hct]; simp)
    have hprops := isDig_props hc₀
    have hm1 : (natDigits a).head? = some c₀ := by rw [hct]; rfl
    have hpos : ((a : ℕ) : ℚ) = (m : ℚ) := by
      rw [habs]
      exact abs_of_nonneg (by exact_mod_cast not_lt.mp hm)
    simp only [floatParse, List.nil_append]
    simp [htrim, hm1, hlow, hinf1, hinf2, hnan, htake, hdrop, hne, hval,
      hprops.2.2.2.2.1, hprops.2.2.2.2.2.1]
    simp [digitsToNat, hpos]
/-- Parsing a comma-free rendered fixed-point numeral with `f` decimal
places recovers the value `m / 10 ^ f` exactly. -/
theorem floatParse_plain_fixed (m : ℤ) (f : ℕ) (hf : 0 < f) :
    floatParse ((if m < 0 then ['-'] else []) ++ natDigits (m.natAbs / 10 ^ f) ++ ['.'] ++
      List.replicate (f - (natDigits (m.natAbs % 10 ^ f)).length) '0' ++
      natDigits (m.natAbs % 10 ^ f)) = some (.finite ((m : ℚ) / 10 ^ f)) := by
  set a := m.natAbs with ha
  set d1 := natDigits (a / 10 ^ f) with hd1e
  set d2 := natDigits (a % 10 ^ f) with hd2e
  set z := List.replicate (f - d2.length) '0' with hze
  have hd1 : ∀ c ∈ d1, isDig c = true := fun c hc => natDigits_mem_isDig hc
  have hd2 : ∀ c ∈ d2, isDig c = true := fun c hc => natDigits_mem_isDig hc
  have hz : ∀ c ∈ z, isDig c = true := by
    intro c hc
    rw [List.eq_of_mem_replicate hc]
    decide
  have hzd : ∀ c ∈ z ++ d2, isDig c = true := by
    intro c hc
    rcases List.mem_append.mp hc with h | h
    · exact hz c h
    · exact hd2 c h
  have hne1 : d1 ≠ [] := natDigits_ne_nil _
  have hlen2 : d2.length ≤ f := natDigits_length_le hf (Nat.mod_lt _ (by positivity))
  have hzdlen : (z ++ d2).length = f := by
    rw [List.length_append, hze, List.length_replicate]
    omega
  have htail : ∀ c ∈ ('.' :: (z ++ d2) : List Char), isPySpace c = false := by
    intro c hc
    rcases List.mem_cons.mp hc with rfl | h2
    · decide
    · exact (isDig_props (hzd c h2)).1
  have hdot : isDig '.' = false := by decide
  have htake1 : (d1 ++ '.' :: (z ++ d2)).takeWhile isDig = d1 := by
    rw [takeWhile_append_all _ hd1]
    simp [List.takeWhile_cons, hdot]
  have hdrop1 : (d1 ++ '.' :: (z ++ d2)).dropWhile isDig = '.' :: (z ++ d2) := by
    rw [dropWhile_append_all _ hd1]
    simp [List.dropWhile_cons, hdot]
  have htake2 : (z ++ d2).takeWhile isDig = z ++ d2 := takeWhile_all hzd
  have hdrop2 : (z ++ d2).dropWhile isDig = [] := dropWhile_all hzd
  obtain ⟨c₀, t, hct⟩ : ∃ c₀ t, d1 = c₀ :: t := by
    cases hdl : d1 with
    | nil => exact absurd hdl hne1
    | cons x y => exact ⟨x, y, rfl⟩
  have hc₀ : isDig c₀ = true := hd1 c₀ (by rw [hct]; simp)
  have hprops := isDig_props hc₀
  have hm1 : (d1 ++ '.' :: (z ++ d2)).head? = some c₀ := by rw [hct]; rfl
  have hB : ∀ c ∈ d1 ++ '.' :: (z ++ d2), isPySpace c = false := by
    intro c hc
    rcases List.mem_append.mp hc with h | h
    · exact (isDig_props (hd1 c h)).1
    · exact htail c h
  have htrimB : trimWs (d1 ++ '.' :: (z ++ d2)) = d1 ++ '.' :: (z ++ d2) :=
    trimWs_eq_self hB
  have hmap1 : d1.map Char.toLower = d1 := digits_map_toLower hd1
  have hmapz : z.map Char.toLower = z := digits_map_toLower hz
  have hmap2 : d2.map Char.toLower = d2 := digits_map_toLower hd2
  have hW : ∀ (w : List Char) (cw : Char), w.head? = some cw → isDig cw = false →
      d1 ++ '.' :: (z ++ d2) ≠ w := by
    intro w cw hw hcw h
    rw [h, hw] at hm1
    have : cw = c₀ := by simpa using hm1
    rw [this, hc₀] at hcw
    cases hcw
  have hinf1 := hW "inf".data 'i' rfl (by decide)
  have hinf2 := hW "infinity".data 'i' rfl (by decide)
  have hnan := hW "nan".data 'n' rfl (by decide)
  have hval1 : (digitsToNat d1 : ℚ) = ((a / 10 ^ f : ℕ) : ℚ) := by
    rw [hd1e, digitsToNat_natDigits]
  have hval2 : (digitsToNat (z ++ d2) : ℚ) = ((a % 10 ^ f : ℕ) : ℚ) := by
    rw [hze, hd2e, digitsToNat_pad, digitsToNat_natDigits]
  have hmant : ((a / 10 ^ f : ℕ) : ℚ) + ((a % 10 ^ f : ℕ) : ℚ) / 10 ^ f =
      (a : ℚ) / 10 ^ f := by
    have h := Nat.div_add_mod a (10 ^ f)
    have hc : ((10 ^ f * (a / 10 ^ f) + a % 10 ^ f : ℕ) : ℚ) = (a : ℚ) := by
      exact_mod_cast congrArg (fun n : ℕ => (n : ℚ)) h
    push_cast at hc
    have hpow : (0 : ℚ) < 10 ^ f := by positivity
    field_simp
    linarith
  have hP : (10 : ℚ) ^ f ≠ 0 := by positivity
  have hmant2 : ((a / 10 ^ f : ℕ) : ℚ) * 10 ^ f + ((a % 10 ^ f : ℕ) : ℚ) = (a : ℚ) := by
    have h2 := hmant
    field_simp at h2
    linarith
  have habs : ((a : ℕ) : ℚ) = |(m : ℚ)| := by
    rw [ha, Int.cast_natAbs]
    push_cast
    ring
  by_cases hm : m < 0
  · rw [if_pos hm]
    have hneg : ((a : ℕ) : ℚ) = -(m : ℚ) := by
      rw [habs]
      exact abs_of_neg (by exact_mod_cast hm)
    have htrim : trimWs ('-' :: (d1 ++ '.' :: (z ++ d2))) = '-' :: (d1 ++ '.' :: (z ++ d2)) := by
      apply trimWs_eq_self
      intro c hc
      rcases List.mem_cons.mp hc with rfl | h2
      · decide
      · exact hB c h2
    simp only [floatParse, List.singleton_append, List.append_assoc, List.cons_append,
      List.nil_append]
    simp [htrim, htrimB, hm1, hinf1, hinf2, hnan, htake1, hdrop1, htake2, hdrop2, hne1,
      hzdlen, hval1, hval2, hmap1, hmapz, hmap2]
    field_simp
    linarith [hmant2, hneg]
  · rw [if_neg hm]
    have hpos : ((a : ℕ) : ℚ) = (m : ℚ) := by
      rw [habs]
      exact abs_of_nonneg (by exact_mod_cast not_lt.mp hm)
    simp only [floatParse, List.nil_append, List.append_assoc, List.cons_append]
    simp [htrimB, hm1, hinf1, hinf2, hnan, htake1, hdrop1, htake2, hdrop2, hne1,
      hzdlen, hval1, hval2, hmap1, hmapz, hmap2, hprops.2.2.2.2.1, hprops.2.2.2.2.2.1]
    field_simp
    linarith [hmant2, hpos]
/-! ### The unit table and the candidate loop of parse -/
theorem UNIT_TO_EXP_eq : UNIT_TO_EXP =
    [("", 0), ("K", 3), ("M", 6), ("G", 9), ("T", 12), ("P", 15), ("E", 18),
     ("m", -3), ("µ", -6), ("n", -9), ("p", -12), ("f", -15), ("a", -18)] := by decide

theorem sortedUnits_eq : sortedUnits =
    ["K", "M", "G", "T", "P", "E", "m", "µ", "n", "p", "f", "a", ""] := by decide

theorem endswithL_append_single (s : List Char) (c u : Char) :
    endswithL (s ++ [c]) [u] = decide (u = c) := by
  unfold endswithL
  rw [List.reverse_append]
  simp [isPrefixOfL]

theorem endswithL_single_iff (s : List Char) (u : Char) :
    endswithL s [u] = true ↔ ∃ t, s = t ++ [u] := by
  unfold endswithL
  cases hs : s.reverse with
  | nil =>
    simp only [List.reverse_singleton, isPrefixOfL]
    constructor
    · intro h
      cases h
    · rintro ⟨t, rfl⟩
      rw [List.reverse_append] at hs
      simp at hs
  | cons b bs =>
    have hsrec : s = bs.reverse ++ [b] := by
      have := congrArg List.reverse hs
      simpa using this
    simp only [List.reverse_singleton, isPrefixOfL]
    constructor
    · intro h
      have hub : u = b := by
        simp only [Bool.and_eq_true, decide_eq_true_eq] at h
        exact h.1
      exact ⟨bs.reverse, by rw [hsrec, hub]⟩
    · rintro ⟨t, rfl⟩
      rw [List.reverse_append] at hs
      simp at hs
      obtain ⟨hub, _⟩ := hs
      simp [hub, isPrefixOfL]

theorem take_append_single (body : List Char) (c : Char) :
    (body ++ [c]).take ((body ++ [c]).length - 1) = body := by
  have h : (body ++ [c]).length - 1 = body.length := by
    simp [List.length_append]
  rw [h, List.take_left]

theorem parseLoop_missing_iff (asStr : Bool) (orig : String) (s : List Char) :
    ∀ us : List String,
      ((∃ e, parseLoop asStr orig s us = .error (.missingUnit e)) ↔
        ∀ u ∈ us, ¬(u ≠ "" ∧ endswithL s u.data = true)) := by
  intro us
  induction us with
  | nil =>
    constructor
    · intro _ u hu
      exact absurd hu (List.not_mem_nil u)
    · intro _
      exact ⟨orig, rfl⟩
  | cons u rest ih =>
    by_cases hc : u ≠ "" ∧ endswithL s u.data = true
    · rw [show parseLoop asStr orig s (u :: rest) =
        (match floatParse (stripSeps (s.take (s.length - u.data.length))) with
         | none => .error (.invalidNumber
             (String.mk (stripSeps (s.take (s.length - u.data.length)))))
         | some num =>
           .ok (if asStr then wrap (pyMulPow10 num ((UNIT_TO_EXP.lookup u).getD 0))
                else .plain (pyMulPow10 num ((UNIT_TO_EXP.lookup u).getD 0)))) by
        simp [parseLoop, hc]]
      constructor
      · intro ⟨e, he⟩
        exfalso
        rcases hfp : floatParse (stripSeps (s.take (s.length - u.data.length))) with _ | num
        · rw [hfp] at he
          cases he
        · rw [hfp] at he
          cases he
      · intro hall
        exact absurd hc (hall u (by simp))
    · have hstep : parseLoop asStr orig s (u :: rest) = parseLoop asStr orig s rest := by
        simp [parseLoop, hc]
      rw [hstep, ih]
      constructor
      · intro hall u2 hu2
        rcases List.mem_cons.mp hu2 with rfl | h
        · exact hc
        · exact hall u2 h
      · intro hall u2 hu2
        exact hall u2 (by simp [hu2])

theorem parseLoop_invalid_iff (asStr : Bool) (orig : String) (s : List Char)
    (t : String) :
    ∀ us : List String,
      (∀ u1 ∈ us, ∀ u2 ∈ us, (u1 ≠ "" ∧ endswithL s u1.data = true) →
        (u2 ≠ "" ∧ endswithL s u2.data = true) → u1 = u2) →
      (parseLoop asStr orig s us = .error (.invalidNumber t) ↔
        ∃ u ∈ us, (u ≠ "" ∧ endswithL s u.data = true) ∧
          floatParse (stripSeps (s.take (s.length - u.data.length))) = none ∧
          t = String.mk (stripSeps (s.take (s.length - u.data.length)))) := by
  intro us
  induction us with
  | nil =>
    intro _
    constructor
    · intro h
      cases h
    · rintro ⟨u, hu, _⟩
      exact absurd hu (List.not_mem_nil u)
  | cons u rest ih =>
    intro huniq
    have huniqr : ∀ u1 ∈ rest, ∀ u2 ∈ rest, (u1 ≠ "" ∧ endswithL s u1.data = true) →
        (u2 ≠ "" ∧ endswithL s u2.data = true) → u1 = u2 :=
      fun u1 h1 u2 h2 => huniq u1 (by simp [h1]) u2 (by simp [h2])
    by_cases hc : u ≠ "" ∧ endswithL s u.data = true
    · rw [show parseLoop asStr orig s (u :: rest) =
        (match floatParse (stripSeps (s.take (s.length - u.data.length))) with
         | none => .error (.invalidNumber
             (String.mk (stripSeps (s.take (s.length - u.data.length)))))
         | some num =>
           .ok (if asStr then wrap (pyMulPow10 num ((UNIT_TO_EXP.lookup u).getD 0))
                else .plain (pyMulPow10 num ((UNIT_TO_EXP.lookup u).getD 0)))) by
        simp [parseLoop, hc]]
      rcases hfp : floatParse (stripSeps (s.take (s.length - u.data.length))) with _ | num
      · constructor
        · intro he
          have ht : t = String.mk (stripSeps (s.take (s.length - u.data.length))) := by
            cases he
            rfl
          exact ⟨u, by simp, hc, hfp, ht⟩
        · rintro ⟨u2, hu2, hc2, hfp2, ht2⟩
          have : u2 = u := huniq u2 hu2 u (by simp) hc2 hc
          subst this
          rw [ht2]
      · constructor
        · intro he
          cases he
        · rintro ⟨u2, hu2, hc2, hfp2, _⟩
          have : u2 = u := huniq u2 hu2 u (by simp) hc2 hc
          subst this
          rw [hfp2] at hfp
          cases hfp
    · have hstep : parseLoop asStr orig s (u :: rest) = parseLoop asStr orig s rest := by
        simp [parseLoop, hc]
      rw [hstep, ih huniqr]
      constructor
      · rintro ⟨u2, hu2, h2⟩
        exact ⟨u2, by simp [hu2], h2⟩
      · rintro ⟨u2, hu2, h2⟩
        rcases List.mem_cons.mp hu2 with rfl | hu2r
        · exact absurd h2.1 hc
        · exact ⟨u2, hu2r, h2⟩

theorem parseLoop_ok (asStr : Bool) (orig : String) (s : List Char) (r : ParseResult) :
    ∀ us : List String, parseLoop asStr orig s us = .ok r →
      ∃ u ∈ us, (u ≠ "" ∧ endswithL s u.data = true) ∧
        ∃ num, floatParse (stripSeps (s.take (s.length - u.data.length))) = some num ∧
          r = (if asStr then wrap (pyMulPow10 num ((UNIT_TO_EXP.lookup u).getD 0))
               else .plain (pyMulPow10 num ((UNIT_TO_EXP.lookup u).getD 0))) := by
  intro us
  induction us with
  | nil =>
    intro h
    cases h
  | cons u rest ih =>
    intro h
    by_cases hc : u ≠ "" ∧ endswithL s u.data = true
    · rw [show parseLoop asStr orig s (u :: rest) =
        (match floatParse (stripSeps (s.take (s.length - u.data.length))) with
         | none => .error (.invalidNumber
             (String.mk (stripSeps (s.take (s.length - u.data.length)))))
         | some num =>
           .ok (if asStr then wrap (pyMulPow10 num ((UNIT_TO_EXP.lookup u).getD 0))
                else .plain (pyMulPow10 num ((UNIT_TO_EXP.lookup u).getD 0)))) by
        simp [parseLoop, hc]] at h
      rcases hfp : floatParse (stripSeps (s.take (s.length - u.data.length))) with _ | num
      · rw [hfp] at h
        cases h
      · rw [hfp] at h
        have : r = (if asStr then wrap (pyMulPow10 num ((UNIT_TO_EXP.lookup u).getD 0))
            else .plain (pyMulPow10 num ((UNIT_TO_EXP.lookup u).getD 0))) := by
          cases h
          rfl
        exact ⟨u, by simp, hc, num, hfp, this⟩
    · have hstep : parseLoop asStr orig s (u :: rest) = parseLoop asStr orig s rest := by
        simp [parseLoop, hc]
      rw [hstep] at h
      obtain ⟨u2, hu2, h2⟩ := ih h
      exact ⟨u2, by simp [hu2], h2⟩

theorem parseLoop_asStr (orig : String) (s : List Char) :
    ∀ us : List String,
      parseLoop true orig s us = (parseLoop false orig s us).map
        (fun r => match r with
          | .plain v => wrap v
          | x => x) := by
  intro us
  induction us with
  | nil => rfl
  | cons u rest ih =>
    by_cases hc : u ≠ "" ∧ endswithL s u.data = true
    · simp only [parseLoop, if_pos hc]
      rcases hfp : floatParse (stripSeps (s.take (s.length - u.data.length))) with _ | num
      · rfl
      · rfl
    · simp only [parseLoop, if_neg hc]
      exact ih

theorem sortedUnits_single : ∀ u ∈ sortedUnits, u ≠ "" → u.data.length = 1 := by
  decide

theorem sortedUnits_uniq (s : List Char) : ∀ u1 ∈ sortedUnits, ∀ u2 ∈ sortedUnits,
    (u1 ≠ "" ∧ endswithL s u1.data = true) → (u2 ≠ "" ∧ endswithL s u2.data = true) →
    u1 = u2 := by
  intro u1 h1 u2 h2 hm1 hm2
  obtain ⟨c1, hc1⟩ := List.length_eq_one.mp (sortedUnits_single u1 h1 hm1.1)
  obtain ⟨c2, hc2⟩ := List.length_eq_one.mp (sortedUnits_single u2 h2 hm2.1)
  have he1 := hm1.2
  have he2 := hm2.2
  rw [hc1] at he1
  rw [hc2] at he2
  obtain ⟨t1, ht1⟩ := (endswithL_single_iff s c1).mp he1
  obtain ⟨t2, ht2⟩ := (endswithL_single_iff s c2).mp he2
  have hcc : c1 = c2 := by
    have h := ht1.symm.trans ht2
    have := congrArg List.getLast? h
    simpa using this
  have hdd : u1.data = u2.data := by rw [hc1, hc2, hcc]
  cases u1
  cases u2
  exact congrArg String.mk (by simpa using hdd)

/-- The twelve non-empty unit symbols: last character, symbol, exponent. -/
def unitTriples : List (Char × String × ℤ) :=
  [('K', "K", 3), ('M', "M", 6), ('G', "G", 9), ('T', "T", 12), ('P', "P", 15),
   ('E', "E", 18), ('m', "m", -3), ('µ', "µ", -6), ('n', "n", -9), ('p', "p", -12),
   ('f', "f", -15), ('a', "a", -18)]

theorem parse_body_unit {c : Char} {u : String} {e : ℤ}
    (h : (c, u, e) ∈ unitTriples) (body : List Char) (asStr : Bool) (orig : String) :
    parseLoop asStr orig (body ++ [c]) sortedUnits =
      (match floatParse (stripSeps body) with
       | none => .error (.invalidNumber (String.mk (stripSeps body)))
       | some num =>
         .ok (if asStr then wrap (pyMulPow10 num e) else .plain (pyMulPow10 num e))) := by
  fin_cases h <;>
    simp [sortedUnits_eq, parseLoop, endswithL_append_single, take_append_single,
      UNIT_TO_EXP_eq, List.lookup]
/-! ### Stage views of the formatting pipeline -/

/-- The raw magnitude step `int(math.floor(math.log10(abs_val) / 3))`. -/
def fmtExp3Guess (v : ℚ) : ℤ := ⌊(ratLog10 |v| : ℚ) / 3⌋

/-- The clamped magnitude step selected by `format`. -/
def fmtExp3 (v : ℚ) : ℤ := (unitFromExp3 (fmtExp3Guess v)).1

/-- The unit symbol selected by `format`. -/
def fmtUnit (v : ℚ) : String := (unitFromExp3 (fmtExp3Guess v)).2

/-- The scaled mantissa `value / 10 ** (3 * exp3)`. -/
def fmtScaled (v : ℚ) : ℚ := v / (10 : ℚ) ^ (3 * fmtExp3 v)

/-- The fractional digit count computed from the scaled mantissa. -/
def fmtFrac (v : ℚ) : ℕ := digitsForThreeTotal |fmtScaled v|

/-- The mantissa after rounding per the requested mode. -/
def fmtRounded (v : ℚ) (mode : String) : ℚ :=
  if mode = "round" then pyRound (fmtScaled v) (fmtFrac v)
  else if mode = "floor" then pyFloorRound (fmtScaled v) (fmtFrac v)
  else pyCeilRound (fmtScaled v) (fmtFrac v)

theorem formatTail_eq (v : ℚ) (mode : String) :
    formatTail v mode =
      if 1000 ≤ |fmtRounded v mode| then
        (if digitsForThreeTotal |fmtRounded v mode / 1000| = 0 then
          .ok (String.mk (renderInt (rne (fmtRounded v mode / 1000))) ++
            (unitFromExp3 (fmtExp3 v + 1)).2)
        else .ok (String.mk (renderFixed (fmtRounded v mode / 1000)
            (digitsForThreeTotal |fmtRounded v mode / 1000|)) ++
          (unitFromExp3 (fmtExp3 v + 1)).2))
      else
        (if fmtFrac v = 0 then
          .ok (String.mk (renderInt (rne (fmtRounded v mode))) ++ fmtUnit v)
        else .ok (String.mk (renderFixed (fmtRounded v mode) (fmtFrac v)) ++ fmtUnit v)) :=
  rfl

theorem Simple3_format_eq_tail (v : ℚ) (mode : String) (h0 : v ≠ 0)
    (hm : mode = "round" ∨ mode = "floor" ∨ mode = "ceil")
    (hg : ¬(|v| < 1 / 10 ^ 300)) : Simple3.format v mode = formatTail v mode := by
  unfold Simple3.format
  rw [if_neg h0, if_neg (not_not_intro hm), if_neg hg]

theorem S3fmt_format_eq_tail (v : ℚ) (mode : String) (h0 : v ≠ 0)
    (hm : mode = "round" ∨ mode = "floor" ∨ mode = "ceil")
    (hg : ¬(|v| < 1 / 10 ^ 300)) : S3fmt.format v mode = formatTail v mode := by
  unfold S3fmt.format
  rw [if_neg (not_not_intro hm), if_neg h0, if_neg hg]

theorem unitFromExp3_id {k : ℤ} (h1 : -6 ≤ k) (h2 : k ≤ 6) : (unitFromExp3 k).1 = k := by
  unfold unitFromExp3
  have hp : (UNITS_POS.length : ℤ) - 1 = 6 := by norm_num [UNITS_POS]
  have hn : -((UNITS_NEG.length : ℤ) - 1) = -6 := by norm_num [UNITS_NEG]
  split_ifs with h
  · show min k ((UNITS_POS.length : ℤ) - 1) = k
    rw [hp]
    omega
  · show max k (-((UNITS_NEG.length : ℤ) - 1)) = k
    rw [hn]
    omega

theorem unitFromExp3_sym {k : ℤ} (h1 : -6 ≤ k) (h2 : k ≤ 6) (h0 : k ≠ 0) :
    ∃ c u, (unitFromExp3 k).2 = u ∧ u.data = [c] ∧ (c, u, 3 * k) ∈ unitTriples := by
  interval_cases k
  · exact ⟨'a', "a", rfl, rfl, by decide⟩
  · exact ⟨'f', "f", rfl, rfl, by decide⟩
  · exact ⟨'p', "p", rfl, rfl, by decide⟩
  · exact ⟨'n', "n", rfl, rfl, by decide⟩
  · exact ⟨'µ', "µ", rfl, rfl, by decide⟩
  · exact ⟨'m', "m", rfl, rfl, by decide⟩
  · exact absurd rfl h0
  · exact ⟨'K', "K", rfl, rfl, by decide⟩
  · exact ⟨'M', "M", rfl, rfl, by decide⟩
  · exact ⟨'G', "G", rfl, rfl, by decide⟩
  · exact ⟨'T', "T", rfl, rfl, by decide⟩
  · exact ⟨'P', "P", rfl, rfl, by decide⟩
  · exact ⟨'E', "E", rfl, rfl, by decide⟩

theorem fmtAbs_bounds (v : ℚ) (hv : v ≠ 0) :
    (10 : ℚ) ^ (3 * fmtExp3Guess v) ≤ |v| ∧ |v| < 10 ^ (3 * fmtExp3Guess v + 3) := by
  have hpos : 0 < |v| := abs_pos.mpr hv
  obtain ⟨hl, hu⟩ := ratLog10_spec |v| hpos
  obtain ⟨hd1, hd2⟩ := floorDiv3_bounds (ratLog10 |v|)
  simp only [fmtExp3Guess]
  constructor
  · exact le_trans (ten_zpow_mono hd1) hl
  · exact lt_of_lt_of_le hu (ten_zpow_mono (by omega))

theorem fmtScaled_abs_bounds (v : ℚ) (hv : v ≠ 0) (h1 : -6 ≤ fmtExp3Guess v)
    (h2 : fmtExp3Guess v ≤ 6) : 1 ≤ |fmtScaled v| ∧ |fmtScaled v| < 1000 := by
  have hid : fmtExp3 v = fmtExp3Guess v := unitFromExp3_id h1 h2
  have hpow : (0 : ℚ) < 10 ^ (3 * fmtExp3Guess v) := ten_zpow_pos _
  have habs : |fmtScaled v| = |v| / 10 ^ (3 * fmtExp3Guess v) := by
    rw [fmtScaled, hid, abs_div, abs_of_pos hpow]
  obtain ⟨hl, hu⟩ := fmtAbs_bounds v hv
  rw [habs]
  constructor
  · rw [le_div_iff₀ hpow]
    simpa using hl
  · rw [div_lt_iff₀ hpow]
    calc |v| < 10 ^ (3 * fmtExp3Guess v + 3) := hu
      _ = 1000 * 10 ^ (3 * fmtExp3Guess v) := by
          rw [show (3 * fmtExp3Guess v + 3) = 3 + 3 * fmtExp3Guess v by ring,
            zpow_add₀ (by norm_num : (10 : ℚ) ≠ 0)]
          norm_num

theorem digitsFor_eq (s : ℚ) (hs : 0 < s) (hL : ratLog10 s ≤ 2) :
    digitsForThreeTotal s = (2 - ratLog10 s).toNat := by
  unfold digitsForThreeTotal
  rw [if_neg (not_le.mpr hs)]
  congr 1
  omega

theorem scaled_mul_pow_bounds (s : ℚ) (hs : 0 < s) (hL : ratLog10 s ≤ 2) :
    100 ≤ s * 10 ^ digitsForThreeTotal s ∧ s * 10 ^ digitsForThreeTotal s < 1000 := by
  obtain ⟨hl, hu⟩ := ratLog10_spec s hs
  have hf : ((digitsForThreeTotal s : ℕ) : ℤ) = 2 - ratLog10 s := by
    rw [digitsFor_eq s hs hL]
    omega
  have hzf : (10 : ℚ) ^ digitsForThreeTotal s = (10 : ℚ) ^ ((2 - ratLog10 s : ℤ)) := by
    rw [← zpow_natCast, hf]
  have hmul : (10 : ℚ) ^ (ratLog10 s) * 10 ^ ((2 - ratLog10 s : ℤ)) = 100 := by
    rw [← zpow_add₀ (by norm_num : (10 : ℚ) ≠ 0)]
    norm_num
  have hmul2 : (10 : ℚ) ^ (ratLog10 s + 1) * 10 ^ ((2 - ratLog10 s : ℤ)) = 1000 := by
    rw [← zpow_add₀ (by norm_num : (10 : ℚ) ≠ 0),
      show ratLog10 s + 1 + (2 - ratLog10 s) = 3 by ring]
    norm_num
  have hzpos : (0 : ℚ) < 10 ^ ((2 - ratLog10 s : ℤ)) := ten_zpow_pos _
  rw [hzf]
  constructor
  · rw [← hmul]
    exact mul_le_mul_of_nonneg_right hl (le_of_lt hzpos)
  · rw [← hmul2]
    exact mul_lt_mul_of_pos_right hu hzpos

theorem rne_abs_le (x : ℚ) : |(rne x : ℚ)| ≤ |x| + 1 / 2 ∧ |x| - 1 / 2 ≤ |(rne x : ℚ)| := by
  have h := rne_sub_abs x
  have h2 := abs_sub_abs_le_abs_sub ((rne x : ℚ)) x
  have h3 := abs_sub_abs_le_abs_sub x ((rne x : ℚ))
  rw [abs_sub_comm] at h3
  constructor <;> linarith

theorem rne_int_abs_bounds (x : ℚ) (h100 : 100 ≤ |x|) (h1000 : |x| < 1000) :
    100 ≤ |rne x| ∧ |rne x| ≤ 1000 := by
  obtain ⟨hu, hl⟩ := rne_abs_le x
  have hc : ((|rne x| : ℤ) : ℚ) = |(rne x : ℚ)| := by
    push_cast
    ring
  constructor
  · by_contra h
    push_neg at h
    have h99 : |rne x| ≤ 99 := by omega
    have : ((|rne x| : ℤ) : ℚ) ≤ 99 := by exact_mod_cast h99
    rw [hc] at this
    linarith
  · by_contra h
    push_neg at h
    have h1001 : 1001 ≤ |rne x| := by omega
    have : (1001 : ℚ) ≤ ((|rne x| : ℤ) : ℚ) := by exact_mod_cast h1001
    rw [hc] at this
    linarith
theorem unitTriples_data : ∀ x ∈ unitTriples, x.2.1.data = [x.1] := by decide

theorem unitTriples_noWs : ∀ x ∈ unitTriples, isPySpace x.1 = false := by decide

theorem floatParse_stripSeps_renderInt (m : ℤ) :
    floatParse (stripSeps (renderInt m)) = some (.finite (m : ℚ)) := by
  rw [stripSeps_renderInt]
  exact floatParse_plain_int m

theorem floatParse_stripSeps_renderFixed (q : ℚ) (f : ℕ) (hf : 0 < f) (m : ℤ)
    (hm : q * 10 ^ f = (m : ℚ)) :
    floatParse (stripSeps (renderFixed q f)) = some (.finite q) := by
  have hrne : rne (q * 10 ^ f) = m := by rw [hm, rne_intCast]
  have hq : q = (m : ℚ) / 10 ^ f := by
    rw [eq_div_iff (by positivity : (10 : ℚ) ^ f ≠ 0)]
    exact hm
  have hsign : (q < 0) = ((m : ℤ) < 0) := by
    apply propext
    rw [hq]
    constructor
    · intro h
      by_contra hh
      push_neg at hh
      have : (0 : ℚ) ≤ (m : ℚ) / 10 ^ f :=
        div_nonneg (by exact_mod_cast hh) (by positivity)
      linarith
    · intro h
      exact div_neg_of_neg_of_pos (by exact_mod_cast h) (by positivity)
  rw [stripSeps_renderFixed, hrne]
  simp only [hsign]
  rw [hq]
  exact floatParse_plain_fixed m f hf

theorem parse_render_int {c : Char} {u : String} {e : ℤ} (h : (c, u, e) ∈ unitTriples)
    (m : ℤ) :
    Simple3.parse (String.mk (renderInt m) ++ u) false =
      .ok (.plain (.finite ((m : ℚ) * 10 ^ e))) := by
  have hdata : (String.mk (renderInt m) ++ u).data = renderInt m ++ [c] := by
    rw [String.data_append]
    congr 1
    exact unitTriples_data _ h
  unfold Simple3.parse
  rw [hdata]
  rw [trimWs_eq_self (by
    intro x hx
    rcases List.mem_append.mp hx with h1 | h2
    · exact renderInt_noWs m x h1
    · have : x = c := by simpa using h2
      subst this
      exact unitTriples_noWs _ h)]
  rw [parse_body_unit h, floatParse_stripSeps_renderInt m]
  simp [pyMulPow10]

theorem parse_render_fixed {c : Char} {u : String} {e : ℤ} (h : (c, u, e) ∈ unitTriples)
    (q : ℚ) (f : ℕ) (hf : 0 < f) (m : ℤ) (hm : q * 10 ^ f = (m : ℚ)) :
    Simple3.parse (String.mk (renderFixed q f) ++ u) false =
      .ok (.plain (.finite (q * 10 ^ e))) := by
  have hdata : (String.mk (renderFixed q f) ++ u).data = renderFixed q f ++ [c] := by
    rw [String.data_append]
    congr 1
    exact unitTriples_data _ h
  unfold Simple3.parse
  rw [hdata]
  rw [trimWs_eq_self (by
    intro x hx
    rcases List.mem_append.mp hx with h1 | h2
    · exact renderFixed_noWs q f x h1
    · have : x = c := by simpa using h2
      subst this
      exact unitTriples_noWs _ h)]
  rw [parse_body_unit h, floatParse_stripSeps_renderFixed q f hf m hm]
  simp [pyMulPow10]

theorem rt_bound (w sc P F : ℚ) (hP : 0 < P) (hF : 0 < F)
    (herr : |w - sc| * F ≤ 1 / 2) (hsc : 100 ≤ |sc| * F) :
    |w * P - sc * P| ≤ |sc * P| / 200 := by
  have h1 : |w * P - sc * P| = |w - sc| * P := by
    rw [show w * P - sc * P = (w - sc) * P by ring, abs_mul, abs_of_pos hP]
  have h2 : |sc * P| = |sc| * P := by rw [abs_mul, abs_of_pos hP]
  rw [h1, h2]
  have ha : |w - sc| ≤ |sc| / 200 := by
    have hws : 0 ≤ |w - sc| := abs_nonneg _
    have h200 : |w - sc| * 200 ≤ |sc| := by nlinarith
    linarith
  calc |w - sc| * P ≤ (|sc| / 200) * P := mul_le_mul_of_nonneg_right ha (le_of_lt hP)
    _ = |sc| * P / 200 := by ring

theorem roundTrip_main (v : ℚ) (hv : v ≠ 0)
    (h1 : -6 ≤ fmtExp3Guess v) (h2 : fmtExp3Guess v ≤ 6) (h0 : fmtExp3Guess v ≠ 0)
    (hcar : 1000 ≤ |fmtRounded v "round"| → fmtExp3Guess v ≠ -1 ∧ fmtExp3Guess v ≠ 6) :
    ∃ s r, Simple3.format v "round" = .ok s ∧
      Simple3.parse s false = .ok (.plain (.finite r)) ∧
      |r - v| ≤ |v| / 200 := by
  have hid : fmtExp3 v = fmtExp3Guess v := unitFromExp3_id h1 h2
  have hPpos : (0 : ℚ) < 10 ^ (3 * fmtExp3 v) := ten_zpow_pos _
  have hguard : ¬(|v| < 1 / 10 ^ 300) := by
    have hl := (fmtAbs_bounds v hv).1
    have hmono : (10 : ℚ) ^ (-18 : ℤ) ≤ 10 ^ (3 * fmtExp3Guess v) :=
      ten_zpow_mono (by omega)
    have h300 : (1 : ℚ) / 10 ^ 300 < 10 ^ (-18 : ℤ) := by
      have he : (1 : ℚ) / 10 ^ 300 = (10 : ℚ) ^ (-(300 : ℤ)) := by
        rw [zpow_neg, one_div, ← zpow_natCast (10 : ℚ) 300]
        norm_cast
      rw [he]
      exact ten_zpow_strictMono (by omega)
    push_neg
    exact le_of_lt (lt_of_lt_of_le h300 (le_trans hmono hl))
  have hfmt : Simple3.format v "round" = formatTail v "round" :=
    Simple3_format_eq_tail _ _ hv (Or.inl rfl) hguard
  have hscne : fmtScaled v ≠ 0 := by
    unfold fmtScaled
    exact div_ne_zero hv (ne_of_gt hPpos)
  have hscpos : 0 < |fmtScaled v| := abs_pos.mpr hscne
  have hLsc : ratLog10 |fmtScaled v| ≤ 2 := by
    obtain ⟨hs1, hs2⟩ := fmtScaled_abs_bounds v hv h1 h2
    by_contra hcon
    push_neg at hcon
    have hz := (ratLog10_spec |fmtScaled v| hscpos).1
    have hzz : (10 : ℚ) ^ (3 : ℤ) ≤ 10 ^ ratLog10 |fmtScaled v| := ten_zpow_mono (by omega)
    have h1000 : (10 : ℚ) ^ (3 : ℤ) = 1000 := by norm_num
    linarith
  obtain ⟨hx1, hx2⟩ := scaled_mul_pow_bounds |fmtScaled v| hscpos hLsc
  have hxabs : |fmtScaled v * 10 ^ fmtFrac v| = |fmtScaled v| * 10 ^ fmtFrac v := by
    rw [abs_mul, abs_of_pos (by positivity : (0 : ℚ) < 10 ^ fmtFrac v)]
  have hx1' : (100 : ℚ) ≤ |fmtScaled v * 10 ^ fmtFrac v| := by rw [hxabs]; exact hx1
  have hx2' : |fmtScaled v * 10 ^ fmtFrac v| < 1000 := by rw [hxabs]; exact hx2
  obtain ⟨hm100, hm1000⟩ := rne_int_abs_bounds _ hx1' hx2'
  have herr := rne_sub_abs (fmtScaled v * 10 ^ fmtFrac v)
  have hmabs : ((|rne (fmtScaled v * 10 ^ fmtFrac v)| : ℤ) : ℚ) =
      |(rne (fmtScaled v * 10 ^ fmtFrac v) : ℚ)| := by push_cast; ring
  have hrnd : fmtRounded v "round" =
      (rne (fmtScaled v * 10 ^ fmtFrac v) : ℚ) / 10 ^ fmtFrac v := by
    simp [fmtRounded, pyRound]
  have hveq : v = fmtScaled v * 10 ^ (3 * fmtExp3 v) := by
    unfold fmtScaled
    field_simp
  obtain ⟨c, u, hu2, hudata, htrip⟩ := unitFromExp3_sym h1 h2 h0
  have htripE : (c, u, 3 * fmtExp3 v) ∈ unitTriples := by rw [hid]; exact htrip
  have hunit : fmtUnit v = u := hu2
  rcases le_or_lt 1000 |fmtRounded v "round"| with hcarry | hnc
  · -- Carry: fractional digit count must be zero and the rounded value ±1000
    obtain ⟨hne1, hne6⟩ := hcar hcarry
    have hF0 : fmtFrac v = 0 := by
      by_contra hf
      have hfge : 1 ≤ fmtFrac v := Nat.one_le_iff_ne_zero.mpr hf
      have hp10 : (10 : ℚ) ≤ 10 ^ fmtFrac v := by
        calc (10 : ℚ) = 10 ^ 1 := by norm_num
          _ ≤ 10 ^ fmtFrac v := pow_le_pow_right₀ (by norm_num) hfge
      have hub : |(rne (fmtScaled v * 10 ^ fmtFrac v) : ℚ)| ≤ 1000 := by
        rw [← hmabs]
        exact_mod_cast hm1000
      have habs2 : |fmtRounded v "round"| =
          |(rne (fmtScaled v * 10 ^ fmtFrac v) : ℚ)| / 10 ^ fmtFrac v := by
        rw [hrnd, abs_div, abs_of_pos (by positivity : (0 : ℚ) < 10 ^ fmtFrac v)]
      rw [habs2] at hcarry
      have hle100 : |(rne (fmtScaled v * 10 ^ fmtFrac v) : ℚ)| / 10 ^ fmtFrac v ≤ 100 := by
        rw [div_le_iff₀ (by positivity : (0 : ℚ) < 10 ^ fmtFrac v)]
        nlinarith
      linarith
    have hr_int : fmtRounded v "round" = (rne (fmtScaled v * 10 ^ fmtFrac v) : ℚ) := by
      rw [hrnd, hF0]
      norm_num
    have habs1000 : |rne (fmtScaled v * 10 ^ fmtFrac v)| = 1000 := by
      rw [hr_int] at hcarry
      have : (1000 : ℚ) ≤ ((|rne (fmtScaled v * 10 ^ fmtFrac v)| : ℤ) : ℚ) := by
        rw [hmabs]
        exact hcarry
      have h1000le : 1000 ≤ |rne (fmtScaled v * 10 ^ fmtFrac v)| := by exact_mod_cast this
      omega
    have hmpm : rne (fmtScaled v * 10 ^ fmtFrac v) = 1000 ∨
        rne (fmtScaled v * 10 ^ fmtFrac v) = -1000 :=
      (abs_eq (by norm_num)).mp habs1000
    have hp1 : (10 : ℚ) ^ fmtFrac v = 1 := by rw [hF0]; norm_num
    have herrF : |(rne (fmtScaled v * 10 ^ fmtFrac v) : ℚ) - fmtScaled v| *
        10 ^ fmtFrac v ≤ 1 / 2 := by
      calc |(rne (fmtScaled v * 10 ^ fmtFrac v) : ℚ) - fmtScaled v| * 10 ^ fmtFrac v
          = |(rne (fmtScaled v * 10 ^ fmtFrac v) : ℚ) - fmtScaled v * 10 ^ fmtFrac v| := by
            rw [hp1, mul_one, mul_one]
        _ ≤ 1 / 2 := herr
    have hg1a : -6 ≤ fmtExp3Guess v + 1 := by omega
    have hg1b : fmtExp3Guess v + 1 ≤ 6 := by omega
    have hg1c : fmtExp3Guess v + 1 ≠ 0 := by omega
    obtain ⟨c2, u2, hu2', hudata', htrip'⟩ := unitFromExp3_sym hg1a hg1b hg1c
    have htripE' : (c2, u2, 3 * (fmtExp3 v + 1)) ∈ unitTriples := by
      rw [hid]
      exact htrip'
    have hm2 : (fmtRounded v "round" / 1000) * 10 ^ (2 : ℕ) =
        ((rne (fmtScaled v * 10 ^ fmtFrac v) / 10 : ℤ) : ℚ) := by
      rcases hmpm with hm' | hm' <;> rw [hr_int, hm'] <;> norm_num
    have hd2 : digitsForThreeTotal |fmtRounded v "round" / 1000| = 2 := by
      rcases hmpm with hm' | hm' <;> rw [hr_int, hm'] <;> norm_num <;> decide
    refine ⟨String.mk (renderFixed (fmtRounded v "round" / 1000) 2) ++ u2,
      (fmtRounded v "round" / 1000) * 10 ^ ((3 * (fmtExp3 v + 1)) : ℤ), ?_, ?_, ?_⟩
    · rw [hfmt, formatTail_eq, if_pos hcarry, if_neg (by rw [hd2]; omega)]
      rw [hd2]
      rw [← hid] at hu2'
      rw [hu2']
    · exact parse_render_fixed htripE' _ 2 (by norm_num) _ hm2
    · have hreq : (fmtRounded v "round" / 1000) * 10 ^ ((3 * (fmtExp3 v + 1)) : ℤ) =
          (rne (fmtScaled v * 10 ^ fmtFrac v) : ℚ) * 10 ^ ((3 * fmtExp3 v) : ℤ) := by
        rw [hr_int, show (3 * (fmtExp3 v + 1) : ℤ) = 3 * fmtExp3 v + 3 by ring,
          zpow_add₀ (by norm_num : (10 : ℚ) ≠ 0)]
        rw [show ((10 : ℚ) ^ (3 : ℤ)) = 1000 by norm_num]
        ring
      rw [hreq]
      have hvmul : v = fmtScaled v * 10 ^ ((3 * fmtExp3 v) : ℤ) := hveq
      calc |(rne (fmtScaled v * 10 ^ fmtFrac v) : ℚ) * 10 ^ ((3 * fmtExp3 v) : ℤ) - v|
          = |(rne (fmtScaled v * 10 ^ fmtFrac v) : ℚ) * 10 ^ ((3 * fmtExp3 v) : ℤ) -
            fmtScaled v * 10 ^ ((3 * fmtExp3 v) : ℤ)| := by rw [← hvmul]
        _ ≤ |fmtScaled v * 10 ^ ((3 * fmtExp3 v) : ℤ)| / 200 := by
            apply rt_bound _ _ _ (10 ^ fmtFrac v) hPpos (by positivity)
            · exact herrF
            · exact hx1
        _ = |v| / 200 := by rw [← hvmul]
  · -- No carry
    rcases Nat.eq_zero_or_pos (fmtFrac v) with hF0 | hFpos
    · have hr_int : fmtRounded v "round" = (rne (fmtScaled v * 10 ^ fmtFrac v) : ℚ) := by
        rw [hrnd, hF0]
        norm_num
      have hp1 : (10 : ℚ) ^ fmtFrac v = 1 := by rw [hF0]; norm_num
      have herrF : |(rne (fmtScaled v * 10 ^ fmtFrac v) : ℚ) - fmtScaled v| *
          10 ^ fmtFrac v ≤ 1 / 2 := by
        calc |(rne (fmtScaled v * 10 ^ fmtFrac v) : ℚ) - fmtScaled v| * 10 ^ fmtFrac v
            = |(rne (fmtScaled v * 10 ^ fmtFrac v) : ℚ) - fmtScaled v * 10 ^ fmtFrac v| := by
              rw [hp1, mul_one, mul_one]
          _ ≤ 1 / 2 := herr
      refine ⟨String.mk (renderInt (rne (fmtScaled v * 10 ^ fmtFrac v))) ++ u,
        (rne (fmtScaled v * 10 ^ fmtFrac v) : ℚ) * 10 ^ ((3 * fmtExp3 v) : ℤ), ?_, ?_, ?_⟩
      · rw [hfmt, formatTail_eq, if_neg (not_le.mpr hnc), if_pos hF0, hunit, hr_int,
          rne_intCast]
      · exact parse_render_int htripE _
      · calc |(rne (fmtScaled v * 10 ^ fmtFrac v) : ℚ) * 10 ^ ((3 * fmtExp3 v) : ℤ) - v|
            = |(rne (fmtScaled v * 10 ^ fmtFrac v) : ℚ) * 10 ^ ((3 * fmtExp3 v) : ℤ) -
              fmtScaled v * 10 ^ ((3 * fmtExp3 v) : ℤ)| := by rw [← hveq]
          _ ≤ |fmtScaled v * 10 ^ ((3 * fmtExp3 v) : ℤ)| / 200 := by
              apply rt_bound _ _ _ (10 ^ fmtFrac v) hPpos (by positivity)
              · exact herrF
              · exact hx1
          _ = |v| / 200 := by rw [← hveq]
    · have hm : fmtRounded v "round" * 10 ^ fmtFrac v =
          ((rne (fmtScaled v * 10 ^ fmtFrac v) : ℤ) : ℚ) := by
        rw [hrnd]
        field_simp
        try ring
      refine ⟨String.mk (renderFixed (fmtRounded v "round") (fmtFrac v)) ++ u,
        fmtRounded v "round" * 10 ^ ((3 * fmtExp3 v) : ℤ), ?_, ?_, ?_⟩
      · rw [hfmt, formatTail_eq, if_neg (not_le.mpr hnc), if_neg (by omega), hunit]
      · exact parse_render_fixed htripE _ _ hFpos _ hm
      · have herrF : |fmtRounded v "round" - fmtScaled v| * 10 ^ fmtFrac v ≤ 1 / 2 := by
          have heq : (fmtRounded v "round" - fmtScaled v) * 10 ^ fmtFrac v =
              (rne (fmtScaled v * 10 ^ fmtFrac v) : ℚ) - fmtScaled v * 10 ^ fmtFrac v := by
            rw [hrnd]
            field_simp
            try ring
          have : |fmtRounded v "round" - fmtScaled v| * 10 ^ fmtFrac v =
              |(fmtRounded v "round" - fmtScaled v) * 10 ^ fmtFrac v| := by
            rw [abs_mul, abs_of_pos (by positivity : (0 : ℚ) < 10 ^ fmtFrac v)]
          rw [this, heq]
          exact herr
        calc |fmtRounded v "round" * 10 ^ ((3 * fmtExp3 v) : ℤ) - v|
            = |fmtRounded v "round" * 10 ^ ((3 * fmtExp3 v) : ℤ) -
              fmtScaled v * 10 ^ ((3 * fmtExp3 v) : ℤ)| := by rw [← hveq]
          _ ≤ |fmtScaled v * 10 ^ ((3 * fmtExp3 v) : ℤ)| / 200 := by
              apply rt_bound _ _ _ (10 ^ fmtFrac v) hPpos (by positivity)
              · exact herrF
              · exact hx1
          _ = |v| / 200 := by rw [← hveq]

theorem renderInt_neg (m : ℤ) (hm : 0 < m) : renderInt (-m) = '-' :: renderInt m := by
  unfold renderInt
  rw [if_pos (by omega : -m < 0), if_neg (by omega : ¬m < 0), Int.natAbs_neg]
  simp

theorem renderFixed_neg (q : ℚ) (f : ℕ) (hq : 0 < q) :
    renderFixed (-q) f = '-' :: renderFixed q f := by
  unfold renderFixed
  rw [show -q * 10 ^ f = -(q * 10 ^ f) by ring, rne_neg, Int.natAbs_neg]
  rw [if_pos (by linarith : -q < 0), if_neg (not_lt.mpr (le_of_lt hq))]
  simp

theorem fmtExp3Guess_neg (v : ℚ) : fmtExp3Guess (-v) = fmtExp3Guess v := by
  unfold fmtExp3Guess
  rw [abs_neg]

theorem fmtExp3_neg (v : ℚ) : fmtExp3 (-v) = fmtExp3 v := by
  unfold fmtExp3
  rw [fmtExp3Guess_neg]

theorem fmtUnit_neg (v : ℚ) : fmtUnit (-v) = fmtUnit v := by
  unfold fmtUnit
  rw [fmtExp3Guess_neg]

theorem fmtScaled_neg (v : ℚ) : fmtScaled (-v) = -(fmtScaled v) := by
  unfold fmtScaled
  rw [fmtExp3_neg, neg_div]

theorem fmtFrac_neg (v : ℚ) : fmtFrac (-v) = fmtFrac v := by
  unfold fmtFrac
  rw [fmtScaled_neg, abs_neg]

theorem fmtRounded_neg (v : ℚ) : fmtRounded (-v) "round" = -(fmtRounded v "round") := by
  unfold fmtRounded
  rw [if_pos rfl, if_pos rfl, fmtScaled_neg, fmtFrac_neg, pyRound_neg]

theorem rne_ge {x : ℚ} {k : ℤ} (h : (k : ℚ) ≤ x) : k ≤ rne x :=
  le_trans (Int.le_floor.mpr h) (floor_le_rne x)

theorem fmtScaled_pos (v : ℚ) (hv : 0 < v) : 0 < fmtScaled v :=
  div_pos hv (ten_zpow_pos _)

theorem digitsFor_zero_ge {s : ℚ} (hs : 0 < s) (h : digitsForThreeTotal s = 0) :
    100 ≤ s := by
  unfold digitsForThreeTotal at h
  rw [if_neg (not_le.mpr hs)] at h
  have hL : 2 ≤ ratLog10 s := by omega
  calc (100 : ℚ) = 10 ^ (2 : ℤ) := by norm_num
    _ ≤ 10 ^ ratLog10 s := ten_zpow_mono hL
    _ ≤ s := (ratLog10_spec s hs).1

theorem digitsFor_pos_L {s : ℚ} (hs : 0 < s) (h : 0 < digitsForThreeTotal s) :
    ratLog10 s ≤ 1 := by
  unfold digitsForThreeTotal at h
  rw [if_neg (not_le.mpr hs)] at h
  omega

theorem string_neg_concat (body : List Char) (u : String) :
    String.mk ('-' :: body) ++ u = "-" ++ (String.mk body ++ u) := by
  apply String.ext
  simp

theorem fmtRounded_mul_pos (v : ℚ) (hv : 0 < v) :
    0 ≤ rne (fmtScaled v * 10 ^ fmtFrac v) ∧
      fmtRounded v "round" =
        (rne (fmtScaled v * 10 ^ fmtFrac v) : ℚ) / 10 ^ fmtFrac v := by
  have hsp := fmtScaled_pos v hv
  constructor
  · exact rne_ge (by
      push_cast
      exact mul_nonneg (le_of_lt hsp) (by positivity))
  · simp [fmtRounded, pyRound]

theorem formatTail_neg_mirror (v : ℚ) (hv : 0 < v) :
    ∃ s, formatTail v "round" = .ok s ∧ formatTail (-v) "round" = .ok ("-" ++ s) := by
  obtain ⟨hm0, hrnd⟩ := fmtRounded_mul_pos v hv
  have hscpos := fmtScaled_pos v hv
  have hr0 : 0 ≤ fmtRounded v "round" := by
    rw [hrnd]
    apply div_nonneg _ (by positivity)
    exact_mod_cast hm0
  have hnegdiv : -(fmtRounded v "round") / 1000 = -(fmtRounded v "round" / 1000) := by
    ring
  rw [formatTail_eq v, formatTail_eq (-v), fmtRounded_neg, fmtFrac_neg, fmtUnit_neg,
    fmtExp3_neg, abs_neg, hnegdiv, abs_neg]
  rcases le_or_lt 1000 |fmtRounded v "round"| with hcarry | hnc
  · have hr1000 : (1000 : ℚ) ≤ fmtRounded v "round" := by
      rwa [abs_of_nonneg hr0] at hcarry
    have hq2pos : 0 < fmtRounded v "round" / 1000 := by linarith
    rw [if_pos hcarry, if_pos hcarry]
    rcases Nat.eq_zero_or_pos (digitsForThreeTotal |fmtRounded v "round" / 1000|) with
      hf2 | hf2
    · rw [if_pos hf2, if_pos hf2]
      have hrnepos : 0 < rne (fmtRounded v "round" / 1000) := by
        have : (1 : ℤ) ≤ rne (fmtRounded v "round" / 1000) := by
          apply rne_ge
          push_cast
          linarith
        omega
      rw [rne_neg, renderInt_neg _ hrnepos, string_neg_concat]
      exact ⟨_, rfl, rfl⟩
    · rw [if_neg (by omega), if_neg (by omega)]
      rw [renderFixed_neg _ _ hq2pos, string_neg_concat]
      exact ⟨_, rfl, rfl⟩
  · rw [if_neg (not_le.mpr hnc), if_neg (not_le.mpr hnc)]
    rcases Nat.eq_zero_or_pos (fmtFrac v) with hf0 | hfpos
    · rw [if_pos hf0, if_pos hf0]
      have hsc100 : (100 : ℚ) ≤ |fmtScaled v| :=
        digitsFor_zero_ge (abs_pos.mpr (ne_of_gt hscpos)) hf0
      rw [abs_of_pos hscpos] at hsc100
      have hrnepos : 0 < rne (fmtRounded v "round") := by
        have h1 : (100 : ℚ) ≤ fmtRounded v "round" := by
          rw [hrnd, hf0]
          simp only [pow_zero, mul_one, div_one]
          exact_mod_cast rne_ge (by exact_mod_cast hsc100 : ((100 : ℤ) : ℚ) ≤ fmtScaled v)
        have : (100 : ℤ) ≤ rne (fmtRounded v "round") := rne_ge (by exact_mod_cast h1)
        omega
      rw [rne_neg, renderInt_neg _ hrnepos, string_neg_concat]
      exact ⟨_, rfl, rfl⟩
    · rw [if_neg (by omega), if_neg (by omega)]
      have hrpos : 0 < fmtRounded v "round" := by
        have hL : ratLog10 |fmtScaled v| ≤ 1 :=
          digitsFor_pos_L (abs_pos.mpr (ne_of_gt hscpos)) hfpos
        obtain ⟨hx1, _⟩ := scaled_mul_pow_bounds |fmtScaled v|
          (abs_pos.mpr (ne_of_gt hscpos)) (by omega)
        have hx1' : (100 : ℚ) ≤ fmtScaled v * 10 ^ fmtFrac v := by
          rw [← abs_of_pos hscpos]
          exact hx1
        have hm100 : (100 : ℤ) ≤ rne (fmtScaled v * 10 ^ fmtFrac v) :=
          rne_ge (by exact_mod_cast hx1')
        rw [hrnd]
        apply div_pos _ (by positivity)
        exact_mod_cast lt_of_lt_of_le (by norm_num : (0 : ℤ) < 100) hm100
      rw [renderFixed_neg _ _ hrpos, string_neg_concat]
      exact ⟨_, rfl, rfl⟩

theorem negative_mirror (v : ℚ) (hv : 0 < v) (hg : 1 / 10 ^ 300 ≤ v) :
    ∃ s, Simple3.format v "round" = .ok s ∧
      Simple3.format (-v) "round" = .ok ("-" ++ s) := by
  have hvne : v ≠ 0 := ne_of_gt hv
  have habsv : |v| = v := abs_of_pos hv
  have hguard : ¬(|v| < 1 / 10 ^ 300) := by rw [habsv]; exact not_lt.mpr hg
  have hguardn : ¬(|(-v)| < 1 / 10 ^ 300) := by rwa [abs_neg]
  rw [Simple3_format_eq_tail v _ hvne (Or.inl rfl) hguard,
    Simple3_format_eq_tail (-v) _ (neg_ne_zero.mpr hvne) (Or.inl rfl) hguardn]
  exact formatTail_neg_mirror v hv

/-! ### Evaluation helpers for concrete inputs

Rational arithmetic in Mathlib does not reduce inside the kernel, so
concrete runs of `format` are evaluated through small lemmas that turn each
stage into a statement `norm_num` or `decide` can settle. -/

deriving instance DecidableEq for Except

theorem rne_eval_lo {q : ℚ} {k : ℤ} (h1 : (k : ℚ) ≤ q) (h2 : q < (k : ℚ) + 1 / 2) :
    rne q = k := by
  have hf : ⌊q⌋ = k := by
    rw [Int.floor_eq_iff]
    exact ⟨h1, by linarith⟩
  unfold rne
  rw [hf, if_pos (by push_cast; linarith)]

theorem rne_eval_hi {q : ℚ} {k : ℤ} (h1 : (k : ℚ) + 1 / 2 < q) (h2 : q ≤ (k : ℚ) + 1) :
    rne q = k + 1 := by
  by_cases he : q = (k : ℚ) + 1
  · rw [he, show ((k : ℚ) + 1) = ((k + 1 : ℤ) : ℚ) by push_cast; ring, rne_intCast]
  · have hf : ⌊q⌋ = k := by
      rw [Int.floor_eq_iff]
      exact ⟨by linarith, lt_of_le_of_ne (by push_cast; linarith) he⟩
    unfold rne
    rw [hf, if_neg (by push_cast; linarith), if_pos (by push_cast; linarith)]

theorem rne_eq_intCast {x : ℚ} {m : ℤ} (h : x = (m : ℚ)) : rne x = m := by
  rw [h, rne_intCast]

theorem fmtExp3Guess_eval {v : ℚ} {L g : ℤ} (hv : 0 < v)
    (h1 : (10 : ℚ) ^ L ≤ v) (h2 : v < 10 ^ (L + 1)) (hg : ⌊((L : ℚ)) / 3⌋ = g) :
    fmtExp3Guess v = g := by
  unfold fmtExp3Guess
  rw [abs_of_pos hv, ratLog10_unique v L h1 h2, hg]

theorem fmtExp3_eval {v : ℚ} {g e : ℤ} {u : String} (hg : fmtExp3Guess v = g)
    (hu : unitFromExp3 g = (e, u)) : fmtExp3 v = e ∧ fmtUnit v = u := by
  unfold fmtExp3 fmtUnit
  rw [hg, hu]
  exact ⟨rfl, rfl⟩

theorem fmtScaled_eval {v : ℚ} {e : ℤ} {s : ℚ} (he : fmtExp3 v = e)
    (hs : v / (10 : ℚ) ^ (3 * e) = s) : fmtScaled v = s := by
  unfold fmtScaled
  rw [he, hs]

theorem digitsForThreeTotal_eval {s : ℚ} {L : ℤ} {f : ℕ} (hs : 0 < s)
    (h1 : (10 : ℚ) ^ L ≤ s) (h2 : s < 10 ^ (L + 1))
    (hf : (max (3 - (L + 1)) 0).toNat = f) : digitsForThreeTotal s = f := by
  unfold digitsForThreeTotal
  rw [if_neg (not_le.mpr hs), ratLog10_unique s L h1 h2, hf]

theorem fmtFrac_eval {v s : ℚ} {L : ℤ} {f : ℕ} (hsc : fmtScaled v = s) (hs : 0 < s)
    (h1 : (10 : ℚ) ^ L ≤ s) (h2 : s < 10 ^ (L + 1))
    (hf : (max (3 - (L + 1)) 0).toNat = f) : fmtFrac v = f := by
  unfold fmtFrac
  rw [hsc, abs_of_pos hs]
  exact digitsForThreeTotal_eval hs h1 h2 hf

theorem fmtRounded_round_eval {v s : ℚ} {f : ℕ} {m : ℤ} {r : ℚ}
    (hsc : fmtScaled v = s) (hf : fmtFrac v = f)
    (hm : rne (s * 10 ^ f) = m) (hr : (m : ℚ) / 10 ^ f = r) :
    fmtRounded v "round" = r := by
  unfold fmtRounded
  rw [if_pos rfl]
  unfold pyRound
  rw [hsc, hf, hm, hr]

theorem fmtRounded_ceil_eval {v s : ℚ} {f : ℕ} {m : ℤ} {r : ℚ}
    (hsc : fmtScaled v = s) (hf : fmtFrac v = f)
    (hm : ⌈s * 10 ^ f⌉ = m) (hr : (m : ℚ) / 10 ^ f = r) :
    fmtRounded v "ceil" = r := by
  unfold fmtRounded
  rw [if_neg (by decide), if_neg (by decide)]
  unfold pyCeilRound
  rw [hsc, hf, hm, hr]

theorem guard_pos {v : ℚ} (h : 1 ≤ v) : ¬(|v| < 1 / 10 ^ 300) := by
  rw [abs_of_pos (by linarith)]
  intro hc
  have h2 : (1 : ℚ) / 10 ^ 300 ≤ 1 := by norm_num
  linarith

theorem renderFixed_eval {q : ℚ} {f : ℕ} {m : ℤ} (hm : rne (q * 10 ^ f) = m)
    (hq : ¬q < 0) :
    renderFixed q f = groupDigits ',' (natDigits (m.natAbs / 10 ^ f)) ++ ['.'] ++
      List.replicate (f - (natDigits (m.natAbs % 10 ^ f)).length) '0' ++
      natDigits (m.natAbs % 10 ^ f) := by
  unfold renderFixed
  rw [hm, if_neg hq]
  simp

theorem format_eval_fixed {v : ℚ} {mode : String} {r : ℚ} {f : ℕ} {u : String}
    {body : List Char}
    (hv : v ≠ 0) (hmode : mode = "round" ∨ mode = "floor" ∨ mode = "ceil")
    (hguard : ¬(|v| < 1 / 10 ^ 300))
    (hr : fmtRounded v mode = r) (hf : fmtFrac v = f) (hu : fmtUnit v = u)
    (hnc : ¬(1000 : ℚ) ≤ |r|) (hfne : ¬f = 0)
    (hbody : renderFixed r f = body) :
    Simple3.format v mode = .ok (String.mk body ++ u) := by
  rw [Simple3_format_eq_tail v mode hv hmode hguard, formatTail_eq, hr, hf, hu,
    if_neg hnc, if_neg hfne, hbody]

theorem format_eval_int {v : ℚ} {mode : String} {r : ℚ} {m : ℤ} {u : String}
    {body : List Char}
    (hv : v ≠ 0) (hmode : mode = "round" ∨ mode = "floor" ∨ mode = "ceil")
    (hguard : ¬(|v| < 1 / 10 ^ 300))
    (hr : fmtRounded v mode = r) (hf : fmtFrac v = 0) (hu : fmtUnit v = u)
    (hnc : ¬(1000 : ℚ) ≤ |r|) (hm : rne r = m) (hbody : renderInt m = body) :
    Simple3.format v mode = .ok (String.mk body ++ u) := by
  rw [Simple3_format_eq_tail v mode hv hmode hguard, formatTail_eq, hr, hf, hu,
    if_neg hnc, if_pos rfl, hm, hbody]

theorem format_eval_carry_fixed {v : ℚ} {mode : String} {r r2 : ℚ} {f2 : ℕ} {e : ℤ}
    {u2 : String} {body : List Char}
    (hv : v ≠ 0) (hmode : mode = "round" ∨ mode = "floor" ∨ mode = "ceil")
    (hguard : ¬(|v| < 1 / 10 ^ 300))
    (hr : fmtRounded v mode = r) (hc : (1000 : ℚ) ≤ |r|)
    (he : fmtExp3 v = e) (hu2 : (unitFromExp3 (e + 1)).2 = u2)
    (hr2 : r / 1000 = r2) (hd2 : digitsForThreeTotal |r2| = f2) (hf2ne : ¬f2 = 0)
    (hbody : renderFixed r2 f2 = body) :
    Simple3.format v mode = .ok (String.mk body ++ u2) := by
  rw [Simple3_format_eq_tail v mode hv hmode hguard, formatTail_eq, hr, he,
    if_pos hc, hr2, hd2, if_neg hf2ne, hbody, hu2]

theorem format_copies_eq (v : ℚ) (mode : String) (hv : v ≠ 0) :
    S3fmt.format v mode = Simple3.format v mode := by
  unfold Simple3.format S3fmt.format
  by_cases hm : mode = "round" ∨ mode = "floor" ∨ mode = "ceil"
  · simp only [if_neg hv, if_neg (not_not_intro hm)]
  · simp only [if_neg hv, if_pos hm]

/-! ### Concrete runs of format -/

theorem fmt_123 : Simple3.format 123 "round" = .ok "123" := by
  have hg : fmtExp3Guess 123 = 0 :=
    fmtExp3Guess_eval (by norm_num) (show (10 : ℚ) ^ (2 : ℤ) ≤ 123 by norm_num)
      (by norm_num) (by norm_num)
  obtain ⟨he, hu⟩ := fmtExp3_eval hg (show unitFromExp3 0 = (0, "") by decide)
  have hsc : fmtScaled 123 = 123 := fmtScaled_eval he (by norm_num)
  have hf : fmtFrac 123 = 0 :=
    fmtFrac_eval hsc (by norm_num) (show (10 : ℚ) ^ (2 : ℤ) ≤ 123 by norm_num)
      (by norm_num) (by decide)
  have hr : fmtRounded 123 "round" = 123 :=
    fmtRounded_round_eval hsc hf
      (rne_eq_intCast (show (123 : ℚ) * 10 ^ 0 = ((123 : ℤ) : ℚ) by push_cast; norm_num))
      (by push_cast; norm_num)
  have h := format_eval_int (show (123 : ℚ) ≠ 0 by norm_num) (Or.inl rfl)
    (guard_pos (by norm_num)) hr hf hu
    (by rw [abs_of_pos (show (0 : ℚ) < 123 by norm_num)]; norm_num)
    (rne_eq_intCast (show (123 : ℚ) = ((123 : ℤ) : ℚ) by push_cast; norm_num))
    (show renderInt 123 = "123".data by decide)
  rw [h]
  decide

theorem fmt_9999 : Simple3.format 9999 "round" = .ok "10.00K" := by
  have hg : fmtExp3Guess 9999 = 1 :=
    fmtExp3Guess_eval (by norm_num) (show (10 : ℚ) ^ (3 : ℤ) ≤ 9999 by norm_num)
      (by norm_num) (by norm_num)
  obtain ⟨he, hu⟩ := fmtExp3_eval hg (show unitFromExp3 1 = (1, "K") by decide)
  have hsc : fmtScaled 9999 = 9999 / 1000 := fmtScaled_eval he (by norm_num)
  have hf : fmtFrac 9999 = 2 :=
    fmtFrac_eval hsc (by norm_num) (show (10 : ℚ) ^ (0 : ℤ) ≤ 9999 / 1000 by norm_num)
      (by norm_num) (by decide)
  have hm : rne ((9999 / 1000 : ℚ) * 10 ^ 2) = 1000 := by
    rw [show ((9999 : ℚ) / 1000) * 10 ^ 2 = (999 : ℚ) + 9 / 10 by norm_num]
    have h9 := rne_eval_hi (show ((999 : ℤ) : ℚ) + 1 / 2 < (999 : ℚ) + 9 / 10 by
        push_cast; norm_num)
      (show (999 : ℚ) + 9 / 10 ≤ ((999 : ℤ) : ℚ) + 1 by push_cast; norm_num)
    omega
  have hr : fmtRounded 9999 "round" = 10 :=
    fmtRounded_round_eval hsc hf hm (by push_cast; norm_num)
  have hbody : renderFixed (10 : ℚ) 2 = "10.00".data := by
    rw [renderFixed_eval
      (rne_eq_intCast (show (10 : ℚ) * 10 ^ 2 = ((1000 : ℤ) : ℚ) by push_cast; norm_num))
      (by norm_num)]
    decide
  have h := format_eval_fixed (show (9999 : ℚ) ≠ 0 by norm_num) (Or.inl rfl)
    (guard_pos (by norm_num)) hr hf hu
    (by rw [abs_of_pos (show (0 : ℚ) < 10 by norm_num)]; norm_num) (by decide) hbody
  rw [h]
  decide

theorem fmt_9999_s3 : S3fmt.format 9999 "round" = .ok "10.00K" :=
  (format_copies_eq 9999 "round" (by norm_num)).trans fmt_9999

theorem fmtR_999999 : fmtRounded 999999 "round" = 1000 := by
  have hg : fmtExp3Guess 999999 = 1 :=
    fmtExp3Guess_eval (by norm_num) (show (10 : ℚ) ^ (5 : ℤ) ≤ 999999 by norm_num)
      (by norm_num) (by norm_num)
  obtain ⟨he, hu⟩ := fmtExp3_eval hg (show unitFromExp3 1 = (1, "K") by decide)
  have hsc : fmtScaled 999999 = 999999 / 1000 := fmtScaled_eval he (by norm_num)
  have hf : fmtFrac 999999 = 0 :=
    fmtFrac_eval hsc (by norm_num)
      (show (10 : ℚ) ^ (2 : ℤ) ≤ 999999 / 1000 by norm_num) (by norm_num) (by decide)
  have hm : rne ((999999 / 1000 : ℚ) * 10 ^ 0) = 1000 := by
    rw [show ((999999 : ℚ) / 1000) * 10 ^ 0 = (999 : ℚ) + 999 / 1000 by norm_num]
    have h9 := rne_eval_hi (show ((999 : ℤ) : ℚ) + 1 / 2 < (999 : ℚ) + 999 / 1000 by
        push_cast; norm_num)
      (show (999 : ℚ) + 999 / 1000 ≤ ((999 : ℤ) : ℚ) + 1 by push_cast; norm_num)
    omega
  exact fmtRounded_round_eval hsc hf hm (by push_cast; norm_num)

theorem fmtExp3_999999 : fmtExp3 999999 = 1 :=
  (fmtExp3_eval (fmtExp3Guess_eval (by norm_num)
    (show (10 : ℚ) ^ (5 : ℤ) ≤ 999999 by norm_num) (by norm_num) (by norm_num))
    (show unitFromExp3 1 = (1, "K") by decide)).1

theorem fmt_999999 : Simple3.format 999999 "round" = .ok "1.00M" := by
  have hd2 : digitsForThreeTotal |(1 : ℚ)| = 2 := by
    rw [show |(1 : ℚ)| = 1 from abs_of_pos (by norm_num)]
    exact digitsForThreeTotal_eval (by norm_num)
      (show (10 : ℚ) ^ (0 : ℤ) ≤ 1 by norm_num) (by norm_num) (by decide)
  have hbody : renderFixed (1 : ℚ) 2 = "1.00".data := by
    rw [renderFixed_eval
      (rne_eq_intCast (show (1 : ℚ) * 10 ^ 2 = ((100 : ℤ) : ℚ) by push_cast; norm_num))
      (by norm_num)]
    decide
  have h := format_eval_carry_fixed (show (999999 : ℚ) ≠ 0 by norm_num) (Or.inl rfl)
    (guard_pos (by norm_num)) fmtR_999999
    (by rw [abs_of_pos (show (0 : ℚ) < 1000 by norm_num)]) fmtExp3_999999
    (show (unitFromExp3 (1 + 1)).2 = "M" by decide)
    (by norm_num) hd2 (by decide) hbody
  rw [h]
  decide

theorem fmt_999999_s3 : S3fmt.format 999999 "round" = .ok "1.00M" :=
  (format_copies_eq 999999 "round" (by norm_num)).trans fmt_999999

theorem fmt_11119_round : Simple3.format 11119 "round" = .ok "11.1K" := by
  have hg : fmtExp3Guess 11119 = 1 :=
    fmtExp3Guess_eval (by norm_num) (show (10 : ℚ) ^ (4 : ℤ) ≤ 11119 by norm_num)
      (by norm_num) (by norm_num)
  obtain ⟨he, hu⟩ := fmtExp3_eval hg (show unitFromExp3 1 = (1, "K") by decide)
  have hsc : fmtScaled 11119 = 11119 / 1000 := fmtScaled_eval he (by norm_num)
  have hf : fmtFrac 11119 = 1 :=
    fmtFrac_eval hsc (by norm_num)
      (show (10 : ℚ) ^ (1 : ℤ) ≤ 11119 / 1000 by norm_num) (by norm_num) (by decide)
  have hm : rne ((11119 / 1000 : ℚ) * 10 ^ 1) = 111 := by
    rw [show ((11119 : ℚ) / 1000) * 10 ^ 1 = (111 : ℚ) + 19 / 100 by norm_num]
    exact rne_eval_lo (show ((111 : ℤ) : ℚ) ≤ (111 : ℚ) + 19 / 100 by push_cast; norm_num)
      (show (111 : ℚ) + 19 / 100 < ((111 : ℤ) : ℚ) + 1 / 2 by push_cast; norm_num)
  have hr : fmtRounded 11119 "round" = 111 / 10 :=
    fmtRounded_round_eval hsc hf hm (by push_cast; norm_num)
  have hbody : renderFixed (111 / 10 : ℚ) 1 = "11.1".data := by
    rw [renderFixed_eval
      (rne_eq_intCast (show (111 / 10 : ℚ) * 10 ^ 1 = ((111 : ℤ) : ℚ) by push_cast; norm_num))
      (by norm_num)]
    decide
  have h := format_eval_fixed (show (11119 : ℚ) ≠ 0 by norm_num) (Or.inl rfl)
    (guard_pos (by norm_num)) hr hf hu
    (by rw [abs_of_pos (show (0 : ℚ) < 111 / 10 by norm_num)]; norm_num) (by decide) hbody
  rw [h]
  decide

theorem fmt_11119_ceil : Simple3.format 11119 "ceil" = .ok "11.2K" := by
  have hg : fmtExp3Guess 11119 = 1 :=
    fmtExp3Guess_eval (by norm_num) (show (10 : ℚ) ^ (4 : ℤ) ≤ 11119 by norm_num)
      (by norm_num) (by norm_num)
  obtain ⟨he, hu⟩ := fmtExp3_eval hg (show unitFromExp3 1 = (1, "K") by decide)
  have hsc : fmtScaled 11119 = 11119 / 1000 := fmtScaled_eval he (by norm_num)
  have hf : fmtFrac 11119 = 1 :=
    fmtFrac_eval hsc (by norm_num)
      (show (10 : ℚ) ^ (1 : ℤ) ≤ 11119 / 1000 by norm_num) (by norm_num) (by decide)
  have hm : ⌈(11119 / 1000 : ℚ) * 10 ^ 1⌉ = 112 := by
    rw [show ((11119 : ℚ) / 1000) * 10 ^ 1 = 11119 / 100 by norm_num, Int.ceil_eq_iff]
    constructor <;> [skip; skip] <;> push_cast <;> norm_num
  have hr : fmtRounded 11119 "ceil" = 112 / 10 :=
    fmtRounded_ceil_eval hsc hf hm (by push_cast; norm_num)
  have hbody : renderFixed (112 / 10 : ℚ) 1 = "11.2".data := by
    rw [renderFixed_eval
      (rne_eq_intCast (show (112 / 10 : ℚ) * 10 ^ 1 = ((112 : ℤ) : ℚ) by push_cast; norm_num))
      (by norm_num)]
    decide
  have h := format_eval_fixed (show (11119 : ℚ) ≠ 0 by norm_num) (Or.inr (Or.inr rfl))
    (guard_pos (by norm_num)) hr hf hu
    (by rw [abs_of_pos (show (0 : ℚ) < 112 / 10 by norm_num)]; norm_num) (by decide) hbody
  rw [h]
  decide

theorem fmt_11111_ceil : Simple3.format 11111 "ceil" = .ok "11.2K" := by
  have hg : fmtExp3Guess 11111 = 1 :=
    fmtExp3Guess_eval (by norm_num) (show (10 : ℚ) ^ (4 : ℤ) ≤ 11111 by norm_num)
      (by norm_num) (by norm_num)
  obtain ⟨he, hu⟩ := fmtExp3_eval hg (show unitFromExp3 1 = (1, "K") by decide)
  have hsc : fmtScaled 11111 = 11111 / 1000 := fmtScaled_eval he (by norm_num)
  have hf : fmtFrac 11111 = 1 :=
    fmtFrac_eval hsc (by norm_num)
      (show (10 : ℚ) ^ (1 : ℤ) ≤ 11111 / 1000 by norm_num) (by norm_num) (by decide)
  have hm : ⌈(11111 / 1000 : ℚ) * 10 ^ 1⌉ = 112 := by
    rw [show ((11111 : ℚ) / 1000) * 10 ^ 1 = 11111 / 100 by norm_num, Int.ceil_eq_iff]
    constructor <;> [skip; skip] <;> push_cast <;> norm_num
  have hr : fmtRounded 11111 "ceil" = 112 / 10 :=
    fmtRounded_ceil_eval hsc hf hm (by push_cast; norm_num)
  have hbody : renderFixed (112 / 10 : ℚ) 1 = "11.2".data := by
    rw [renderFixed_eval
      (rne_eq_intCast (show (112 / 10 : ℚ) * 10 ^ 1 = ((112 : ℤ) : ℚ) by push_cast; norm_num))
      (by norm_num)]
    decide
  have h := format_eval_fixed (show (11111 : ℚ) ≠ 0 by norm_num) (Or.inr (Or.inr rfl))
    (guard_pos (by norm_num)) hr hf hu
    (by rw [abs_of_pos (show (0 : ℚ) < 112 / 10 by norm_num)]; norm_num) (by decide) hbody
  rw [h]
  decide

theorem fmt_1234 : Simple3.format 1234 "round" = .ok "1.23K" := by
  have hg : fmtExp3Guess 1234 = 1 :=
    fmtExp3Guess_eval (by norm_num) (show (10 : ℚ) ^ (3 : ℤ) ≤ 1234 by norm_num)
      (by norm_num) (by norm_num)
  obtain ⟨he, hu⟩ := fmtExp3_eval hg (show unitFromExp3 1 = (1, "K") by decide)
  have hsc : fmtScaled 1234 = 1234 / 1000 := fmtScaled_eval he (by norm_num)
  have hf : fmtFrac 1234 = 2 :=
    fmtFrac_eval hsc (by norm_num)
      (show (10 : ℚ) ^ (0 : ℤ) ≤ 1234 / 1000 by norm_num) (by norm_num) (by decide)
  have hm : rne ((1234 / 1000 : ℚ) * 10 ^ 2) = 123 := by
    rw [show ((1234 : ℚ) / 1000) * 10 ^ 2 = (123 : ℚ) + 4 / 10 by norm_num]
    exact rne_eval_lo (show ((123 : ℤ) : ℚ) ≤ (123 : ℚ) + 4 / 10 by push_cast; norm_num)
      (show (123 : ℚ) + 4 / 10 < ((123 : ℤ) : ℚ) + 1 / 2 by push_cast; norm_num)
  have hr : fmtRounded 1234 "round" = 123 / 100 :=
    fmtRounded_round_eval hsc hf hm (by push_cast; norm_num)
  have hbody : renderFixed (123 / 100 : ℚ) 2 = "1.23".data := by
    rw [renderFixed_eval
      (rne_eq_intCast (show (123 / 100 : ℚ) * 10 ^ 2 = ((123 : ℤ) : ℚ) by push_cast; norm_num))
      (by norm_num)]
    decide
  have h := format_eval_fixed (show (1234 : ℚ) ≠ 0 by norm_num) (Or.inl rfl)
    (guard_pos (by norm_num)) hr hf hu
    (by rw [abs_of_pos (show (0 : ℚ) < 123 / 100 by norm_num)]; norm_num) (by decide) hbody
  rw [h]
  decide

/-! ### Rounding-mode characterizations and parse-side helpers -/

theorem pyFloorRound_le (q : ℚ) (n : ℕ) : pyFloorRound q n ≤ q := by
  unfold pyFloorRound
  rw [div_le_iff₀ (show (0 : ℚ) < 10 ^ n by positivity)]
  exact Int.floor_le _

theorem lt_pyFloorRound_add (q : ℚ) (n : ℕ) : q < pyFloorRound q n + 1 / 10 ^ n := by
  unfold pyFloorRound
  have h := Int.lt_floor_add_one (q * 10 ^ n)
  have hp : (0 : ℚ) < 10 ^ n := by positivity
  rw [div_add_div_same, lt_div_iff₀ hp]
  linarith

theorem le_pyCeilRound (q : ℚ) (n : ℕ) : q ≤ pyCeilRound q n := by
  unfold pyCeilRound
  rw [le_div_iff₀ (show (0 : ℚ) < 10 ^ n by positivity)]
  exact Int.le_ceil _

theorem pyCeilRound_sub_lt (q : ℚ) (n : ℕ) : pyCeilRound q n - 1 / 10 ^ n < q := by
  unfold pyCeilRound
  have h := Int.ceil_lt_add_one (q * 10 ^ n)
  have hp : (0 : ℚ) < 10 ^ n := by positivity
  rw [div_sub_div_same, div_lt_iff₀ hp]
  linarith

theorem fmtRounded_floor_eq (v : ℚ) :
    fmtRounded v "floor" = ((⌊fmtScaled v * 10 ^ fmtFrac v⌋ : ℤ) : ℚ) / 10 ^ fmtFrac v := by
  unfold fmtRounded
  rw [if_neg (by decide), if_pos rfl]
  rfl

theorem fmtRounded_ceil_eq (v : ℚ) :
    fmtRounded v "ceil" = ((⌈fmtScaled v * 10 ^ fmtFrac v⌉ : ℤ) : ℚ) / 10 ^ fmtFrac v := by
  unfold fmtRounded
  rw [if_neg (by decide), if_neg (by decide)]
  rfl

theorem parseLoop_missing_of (asStr : Bool) (orig : String) (s : List Char) :
    ∀ us : List String, (∀ u ∈ us, ¬(u ≠ "" ∧ endswithL s u.data = true)) →
      parseLoop asStr orig s us = .error (.missingUnit orig) := by
  intro us
  induction us with
  | nil => intro _; rfl
  | cons u rest ih =>
    intro hall
    have hstep : parseLoop asStr orig s (u :: rest) = parseLoop asStr orig s rest := by
      simp [parseLoop, hall u (by simp)]
    rw [hstep]
    exact ih (fun u2 h2 => hall u2 (by simp [h2]))

theorem parse_asStr_map (s : String) :
    Simple3.parse s true = (Simple3.parse s false).map
      (fun r => match r with
        | .plain v => wrap v
        | x => x) :=
  parseLoop_asStr s (trimWs s.data) sortedUnits

theorem pyValOf_wrap (v : PyFloat) : pyValOf (wrap v) = v := by
  cases v with
  | finite q =>
    by_cases h : q.den = 1
    · have hq : ((q.num : ℤ) : ℚ) = q := by
        conv_rhs => rw [← Rat.num_div_den q, h]
        simp
      simp [wrap, h, pyValOf, hq]
    · simp [wrap, h, pyValOf]
  | inf b => rfl
  | nan => rfl

/-! ### Concrete runs of parse -/

theorem parse_comma_example :
    Simple3.parse "9,876.5K" false = .ok (.plain (.finite 9876500)) := by
  have hm : (19753 / 2 : ℚ) * 10 ^ 1 = ((98765 : ℤ) : ℚ) := by push_cast; norm_num
  have hstr : String.mk (renderFixed (19753 / 2 : ℚ) 1) ++ "K" = "9,876.5K" := by
    rw [renderFixed_eval (rne_eq_intCast hm) (by norm_num)]
    decide
  have h := parse_render_fixed (show ('K', "K", (3 : ℤ)) ∈ unitTriples by decide)
    (19753 / 2 : ℚ) 1 (by norm_num) 98765 hm
  rw [hstr] at h
  rw [h]
  congr 1
  congr 1
  congr 1
  norm_num

theorem parse_underscore_example :
    Simple3.parse "1_234.0K" false = .ok (.plain (.finite 1234000)) := by
  have hdata : trimWs "1_234.0K".data = "1_234.0".data ++ ['K'] := by decide
  unfold Simple3.parse
  rw [hdata, parse_body_unit (show ('K', "K", (3 : ℤ)) ∈ unitTriples by decide)]
  have hss : stripSeps "1_234.0".data =
      (if (12340 : ℤ) < 0 then ['-'] else []) ++
        natDigits ((12340 : ℤ).natAbs / 10 ^ 1) ++ ['.'] ++
        List.replicate (1 - (natDigits ((12340 : ℤ).natAbs % 10 ^ 1)).length) '0' ++
        natDigits ((12340 : ℤ).natAbs % 10 ^ 1) := by decide
  rw [hss, floatParse_plain_fixed 12340 1 (by norm_num)]
  simp only [pyMulPow10]
  congr 1
  congr 1
  congr 1
  push_cast
  norm_num

theorem parse_123K_plain :
    Simple3.parse "1.23K" false = .ok (.plain (.finite 1230)) := by
  have hm : (123 / 100 : ℚ) * 10 ^ 2 = ((123 : ℤ) : ℚ) := by push_cast; norm_num
  have hstr : String.mk (renderFixed (123 / 100 : ℚ) 2) ++ "K" = "1.23K" := by
    rw [renderFixed_eval (rne_eq_intCast hm) (by norm_num)]
    decide
  have h := parse_render_fixed (show ('K', "K", (3 : ℤ)) ∈ unitTriples by decide)
    (123 / 100 : ℚ) 2 (by norm_num) 123 hm
  rw [hstr] at h
  rw [h]
  congr 1
  congr 1
  congr 1
  norm_num

theorem wrap_1230 : wrap (.finite 1230) = .intDisplay 1230 := by
  have hden : (1230 : ℚ).den = 1 := by norm_num
  have hnum : (1230 : ℚ).num = 1230 := by norm_num
  simp [wrap, hden, hnum]

theorem parse_123K_display :
    Simple3.parse "1.23K" true = .ok (.intDisplay 1230) := by
  rw [parse_asStr_map, parse_123K_plain]
  simp only [Except.map]
  rw [wrap_1230]

/-! ### Mode projections of the rounding stage -/

theorem fmtRounded_floor (v : ℚ) :
    fmtRounded v "floor" = pyFloorRound (fmtScaled v) (fmtFrac v) := by
  unfold fmtRounded
  rw [if_neg (by decide), if_pos rfl]

theorem fmtRounded_ceil (v : ℚ) :
    fmtRounded v "ceil" = pyCeilRound (fmtScaled v) (fmtFrac v) := by
  unfold fmtRounded
  rw [if_neg (by decide), if_neg (by decide)]

/-! ### The claims -/

/-- C1.  Round-trip: for a nonzero value whose raw magnitude step lies in
`[-6, 6]`, is nonzero (a step-0 rendering carries no unit symbol and cannot
be re-parsed), and whose rounding carry neither lands on the empty unit nor
crosses the top clamp, `parse` of `format` succeeds and returns a value
within `|v| / 200` of the input. -/
theorem C1_round_trip (v : ℚ) (hv : v ≠ 0)
    (h1 : -6 ≤ fmtExp3Guess v) (h2 : fmtExp3Guess v ≤ 6) (h0 : fmtExp3Guess v ≠ 0)
    (hc : 1000 ≤ |fmtRounded v "round"| → fmtExp3Guess v ≠ -1 ∧ fmtExp3Guess v ≠ 6) :
    ∃ s r, Simple3.format v "round" = .ok s ∧
      Simple3.parse s false = .ok (.plain (.finite r)) ∧
      |r - v| ≤ |v| / 200 :=
  roundTrip_main v hv h1 h2 h0 hc

theorem C1_round_trip_witness :
    ∃ s r, Simple3.format 123456 "round" = .ok s ∧
      Simple3.parse s false = .ok (.plain (.finite r)) ∧
      |r - 123456| ≤ |(123456 : ℚ)| / 200 := by
  have hg : fmtExp3Guess 123456 = 1 :=
    fmtExp3Guess_eval (by norm_num) (show (10 : ℚ) ^ (5 : ℤ) ≤ 123456 by norm_num)
      (by norm_num) (by norm_num)
  exact C1_round_trip 123456 (by norm_num) (by rw [hg]; decide) (by rw [hg]; decide)
    (by rw [hg]; decide) (fun _ => ⟨by rw [hg]; decide, by rw [hg]; decide⟩)

theorem C1_counterexample :
    Simple3.format 123 "round" = .ok "123" ∧
    Simple3.parse "123" false = .error (.missingUnit "123") :=
  ⟨fmt_123, by decide⟩

/-- C2.  The three-digit rule fails on `9999`, a nonzero value of
representable magnitude (raw step 1): both copies of `format` return
`"10.00K"`, which has four digit characters. -/
theorem C2_three_digit_bug :
    fmtExp3Guess (9999 : ℚ) = 1 ∧
    Simple3.format 9999 "round" = .ok "10.00K" ∧
    S3fmt.format 9999 "round" = .ok "10.00K" ∧
    digitCount "10.00K" = 4 := by
  refine ⟨?_, fmt_9999, fmt_9999_s3, by decide⟩
  exact fmtExp3Guess_eval (by norm_num) (show (10 : ℚ) ^ (3 : ℤ) ≤ 9999 by norm_num)
    (by norm_num) (by norm_num)

/-- C3.  Carry-up: when the rounded mantissa reaches absolute value 1000,
the formatting tail advances exactly one magnitude step, divides the
mantissa by 1000 and recomputes the fractional digit count from the new
mantissa; concretely both copies format `999999` as `"1.00M"`. -/
theorem C3_carry_up (v : ℚ) (m : String) (hc : 1000 ≤ |fmtRounded v m|) :
    formatTail v m =
      (if digitsForThreeTotal |fmtRounded v m / 1000| = 0 then
        .ok (String.mk (renderInt (rne (fmtRounded v m / 1000))) ++
          (unitFromExp3 (fmtExp3 v + 1)).2)
      else
        .ok (String.mk (renderFixed (fmtRounded v m / 1000)
            (digitsForThreeTotal |fmtRounded v m / 1000|)) ++
          (unitFromExp3 (fmtExp3 v + 1)).2)) ∧
    Simple3.format 999999 "round" = .ok "1.00M" ∧
    S3fmt.format 999999 "round" = .ok "1.00M" := by
  refine ⟨?_, fmt_999999, fmt_999999_s3⟩
  rw [formatTail_eq, if_pos hc]

theorem C3_carry_up_witness :
    1000 ≤ |fmtRounded 999999 "round"| ∧
    Simple3.format 999999 "round" = .ok "1.00M" := by
  have hc : 1000 ≤ |fmtRounded 999999 "round"| := by
    rw [fmtR_999999, abs_of_pos (show (0 : ℚ) < 1000 by norm_num)]
  exact ⟨hc, (C3_carry_up 999999 "round" hc).2.1⟩

/-- C4.  Rounding modes: `"floor"` yields the greatest multiple of
`10 ^ -fracDigits` not above the scaled mantissa and `"ceil"` the least
multiple not below it (truncation toward negative and positive infinity at
the computed precision); concretely `format 11119 "round" = "11.1K"`,
`format 11119 "ceil" = "11.2K"` and `format 11111 "ceil" = "11.2K"`. -/
theorem C4_rounding_modes (v : ℚ) :
    ((∃ m : ℤ, fmtRounded v "floor" = (m : ℚ) / 10 ^ fmtFrac v) ∧
      fmtRounded v "floor" ≤ fmtScaled v ∧
      fmtScaled v < fmtRounded v "floor" + 1 / 10 ^ fmtFrac v) ∧
    ((∃ m : ℤ, fmtRounded v "ceil" = (m : ℚ) / 10 ^ fmtFrac v) ∧
      fmtScaled v ≤ fmtRounded v "ceil" ∧
      fmtRounded v "ceil" - 1 / 10 ^ fmtFrac v < fmtScaled v) ∧
    Simple3.format 11119 "round" = .ok "11.1K" ∧
    Simple3.format 11119 "ceil" = .ok "11.2K" ∧
    Simple3.format 11111 "ceil" = .ok "11.2K" := by
  refine ⟨⟨⟨⌊fmtScaled v * 10 ^ fmtFrac v⌋, fmtRounded_floor_eq v⟩, ?_, ?_⟩,
    ⟨⟨⌈fmtScaled v * 10 ^ fmtFrac v⌉, fmtRounded_ceil_eq v⟩, ?_, ?_⟩,
    fmt_11119_round, fmt_11119_ceil, fmt_11111_ceil⟩
  · rw [fmtRounded_floor]
    exact pyFloorRound_le (fmtScaled v) (fmtFrac v)
  · rw [fmtRounded_floor]
    exact lt_pyFloorRound_add (fmtScaled v) (fmtFrac v)
  · rw [fmtRounded_ceil]
    exact le_pyCeilRound (fmtScaled v) (fmtFrac v)
  · rw [fmtRounded_ceil]
    exact pyCeilRound_sub_lt (fmtScaled v) (fmtFrac v)

/-- C5.  Parse raises-iff: `parse` fails with the missing-unit error
(carrying the original text) exactly when no non-empty unit symbol is a
suffix of the trimmed input, and with the invalid-number error (carrying
the stripped numeric substring) exactly when a unit matched but the
remaining text does not parse as a float; bare `"123"` and lowercase
`"1.23k"` are concrete missing-unit failures. -/
theorem C5_parse_errors (s : String) (b : Bool) (t : String) :
    (Simple3.parse s b = .error (.missingUnit s) ↔
      ∀ u ∈ sortedUnits, ¬(u ≠ "" ∧ endswithL (trimWs s.data) u.data = true)) ∧
    (Simple3.parse s b = .error (.invalidNumber t) ↔
      ∃ u ∈ sortedUnits, (u ≠ "" ∧ endswithL (trimWs s.data) u.data = true) ∧
        floatParse (stripSeps ((trimWs s.data).take
          ((trimWs s.data).length - u.data.length))) = none ∧
        t = String.mk (stripSeps ((trimWs s.data).take
          ((trimWs s.data).length - u.data.length)))) ∧
    Simple3.parse "123" false = .error (.missingUnit "123") ∧
    Simple3.parse "1.23k" false = .error (.missingUnit "1.23k") := by
  refine ⟨⟨?_, ?_⟩, ?_, by decide, by decide⟩
  · intro h
    exact (parseLoop_missing_iff b s (trimWs s.data) sortedUnits).mp ⟨s, h⟩
  · intro hall
    exact parseLoop_missing_of b s (trimWs s.data) sortedUnits hall
  · exact parseLoop_invalid_iff b s (trimWs s.data) t sortedUnits
      (sortedUnits_uniq (trimWs s.data))

/-- C6.  Parse value semantics: every successful plain parse comes from a
matched non-empty unit suffix, with the comma- and underscore-stripped
remainder parsed as a float and multiplied by `10 ^ exp` for the matched
symbol's exponent; concretely `parse "9,876.5K" = 9876500` and
`parse "1_234.0K" = 1234000`. -/
theorem C6_parse_value (s : String) (r : ParseResult)
    (h : Simple3.parse s false = .ok r) :
    (∃ u ∈ sortedUnits, (u ≠ "" ∧ endswithL (trimWs s.data) u.data = true) ∧
      ∃ num, floatParse (stripSeps ((trimWs s.data).take
          ((trimWs s.data).length - u.data.length))) = some num ∧
        r = .plain (pyMulPow10 num ((UNIT_TO_EXP.lookup u).getD 0))) ∧
    Simple3.parse "9,876.5K" false = .ok (.plain (.finite 9876500)) ∧
    Simple3.parse "1_234.0K" false = .ok (.plain (.finite 1234000)) := by
  refine ⟨?_, parse_comma_example, parse_underscore_example⟩
  obtain ⟨u, hu, hcond, num, hfp, hr⟩ :=
    parseLoop_ok false s (trimWs s.data) r sortedUnits h
  exact ⟨u, hu, hcond, num, hfp, by simpa using hr⟩

theorem C6_parse_value_witness :
    (∃ u ∈ sortedUnits,
      (u ≠ "" ∧ endswithL (trimWs "9,876.5K".data) u.data = true) ∧
      ∃ num, floatParse (stripSeps ((trimWs "9,876.5K".data).take
          ((trimWs "9,876.5K".data).length - u.data.length))) = some num ∧
        ParseResult.plain (.finite 9876500) =
          .plain (pyMulPow10 num ((UNIT_TO_EXP.lookup u).getD 0))) ∧
    Simple3.parse "9,876.5K" false = .ok (.plain (.finite 9876500)) ∧
    Simple3.parse "1_234.0K" false = .ok (.plain (.finite 1234000)) :=
  C6_parse_value "9,876.5K" (.plain (.finite 9876500)) parse_comma_example

/-- C7.  Zero short-circuit: the copy in
`src/simple3_formatter/simple3_formatter.py` returns `"0.00"` for zero
under every mode string; the copy in `src/src/s3fmt/core.py` does so only
for recognized modes, because its mode check precedes its zero check. -/
theorem C7_zero_short_circuit (m : String) :
    Simple3.format 0 m = .ok "0.00" ∧
    ((m = "round" ∨ m = "floor" ∨ m = "ceil") → S3fmt.format 0 m = .ok "0.00") := by
  constructor
  · unfold Simple3.format
    rw [if_pos rfl]
  · intro hm
    unfold S3fmt.format
    rw [if_neg (not_not_intro hm), if_pos rfl]

theorem C7_counterexample :
    S3fmt.format 0 "bogus" = .error .invalidArgument ∧
    Simple3.format 0 "bogus" = .ok "0.00" := by
  constructor
  · unfold S3fmt.format
    rw [if_pos (by decide)]
  · unfold Simple3.format
    rw [if_pos rfl]

/-- C8.  Negative mirror: for positive `v` at or above the effective-zero
floor, `format (-v)` is `"-"` prepended to `format v`; concretely
`format (-1234) = "-1.23K"`. -/
theorem C8_negative_mirror (v : ℚ) (hv : 0 < v) (hg : 1 / 10 ^ 300 ≤ v) :
    (∃ s, Simple3.format v "round" = .ok s ∧
      Simple3.format (-v) "round" = .ok ("-" ++ s)) ∧
    Simple3.format (-1234 : ℚ) "round" = .ok "-1.23K" := by
  refine ⟨negative_mirror v hv hg, ?_⟩
  obtain ⟨s, h1, h2⟩ := negative_mirror 1234 (by norm_num) (by norm_num)
  have hs : s = "1.23K" := Except.ok.inj (h1.symm.trans fmt_1234)
  rw [hs] at h2
  rw [h2]
  decide

theorem C8_negative_mirror_witness :
    (∃ s, Simple3.format 1234 "round" = .ok s ∧
      Simple3.format (-1234 : ℚ) "round" = .ok ("-" ++ s)) ∧
    Simple3.format (-1234 : ℚ) "round" = .ok "-1.23K" :=
  C8_negative_mirror 1234 (by norm_num) (by norm_num)

/-- C9.  Display tagging: parse with the display flag is the plain parse
with the integer-or-fractional display wrapper applied; the wrapper is
numerically transparent; concretely the display-tagged parse of `"1.23K"`
is the integer-display value 1230, whose underscore rendering is
`"1_230"`. -/
theorem C9_display_tagging (s : String) :
    Simple3.parse s true = (Simple3.parse s false).map
      (fun r => match r with
        | .plain v => wrap v
        | x => x) ∧
    (∀ v, pyValOf (wrap v) = v) ∧
    Simple3.parse "1.23K" true = .ok (.intDisplay 1230) ∧
    reprUnderscoreInt 1230 = "1_230" :=
  ⟨parse_asStr_map s, pyValOf_wrap, parse_123K_display, by decide⟩

/-- C10.  Implementation equivalence: the two copies' `parse` functions are
identical, and their `format` functions agree on every input except the
pair of a zero value with an unrecognized mode string. -/
theorem C10_copies_agree (v : ℚ) (m : String)
    (h : v ≠ 0 ∨ m = "round" ∨ m = "floor" ∨ m = "ceil") :
    Simple3.format v m = S3fmt.format v m ∧
    ∀ (s : String) (b : Bool), Simple3.parse s b = S3fmt.parse s b := by
  refine ⟨?_, fun s b => rfl⟩
  rcases h with h0 | hm
  · exact (format_copies_eq v m h0).symm
  · by_cases h0 : v = 0
    · subst h0
      unfold Simple3.format S3fmt.format
      rw [if_pos rfl, if_neg (not_not_intro hm), if_pos rfl]
    · exact (format_copies_eq v m h0).symm

theorem C10_copies_agree_witness :
    Simple3.format 1 "round" = S3fmt.format 1 "round" ∧
    ∀ (s : String) (b : Bool), Simple3.parse s b = S3fmt.parse s b :=
  C10_copies_agree 1 "round" (Or.inl (by norm_num))

theorem C10_counterexample :
    Simple3.format 0 "bogus" = .ok "0.00" ∧
    S3fmt.format 0 "bogus" = .error .invalidArgument ∧
    Simple3.format 0 "bogus" ≠ S3fmt.format 0 "bogus" := by
  refine ⟨?_, ?_, ?_⟩
  · unfold Simple3.format
    rw [if_pos rfl]
  · unfold S3fmt.format
    rw [if_pos (by decide)]
  · unfold Simple3.format S3fmt.format
    rw [if_pos rfl, if_pos (by decide)]
    decide
